import Mathlib

/-!
# Shallow embedding of the products-web-scraping core

This file embeds the extraction and orchestration core of the repository
(`src/scrapers/*.py`, `src/agents/scraping_orchestrator.py`, `src/models/__init__.py`)
and proves the specification claims about it.

Modelling conventions:
* Python text is modelled as `List Char` (written `Str` below); selector strings
  used as lookup keys stay Lean `String`s.
* Python `float` values arising from price parsing are modelled as `ℚ`: every
  value the code manipulates comes from a short decimal numeral, and the claims
  compare such decimal values, so rational arithmetic is the faithful model.
* BeautifulSoup is an external collaborator: a DOM container is modelled by the
  answers it gives to the `select_one`/`select` queries the extractor issues,
  plus the values of the regex-based sub-extractions (rating, reviews count,
  delivery info) that no claim depends on.
* `datetime.now()` timestamps and wall-clock execution times are dropped from
  the records and results: they are real-time effects outside the embedding.
-/

/-- Python `str` payloads (price texts, names, urls) as character lists. -/
abbrev Str := List Char

/-- Coerce a Lean string literal to the `List Char` representation. -/
def strL (s : String) : Str := s.data

namespace PyStr

/-- `c` is one of the characters kept by the price-cleaning regex
`re.sub(r"[^\d,.]", "", ...)`: a digit, a comma or a period. -/
def keepPriceChar (c : Char) : Bool := c.isDigit || c = ',' || c = '.'

/-- Model of `re.sub(r"[^\d,.]", "", price_text)`: drop every character that is
not a digit, comma or period. -/
def residue (s : Str) : Str := s.filter keepPriceChar

/-- Model of Python `x in s` for a single character. -/
def hasChar (c : Char) (s : Str) : Bool := s.any (· = c)

/-- Model of Python `s.replace(old, "")` for a single character. -/
def removeChar (c : Char) (s : Str) : Str := s.filter (· ≠ c)

/-- Model of Python `s.replace(",", ".")`. -/
def commaToDot (s : Str) : Str := s.map (fun c => if c = ',' then '.' else c)

/-- Model of Python `s.split(".")`. -/
def splitDot : Str → List Str
  | [] => [[]]
  | c :: cs =>
    if c = '.' then [] :: splitDot cs
    else
      match splitDot cs with
      | [] => [[c]]
      | g :: gs => (c :: g) :: gs

/-- Numeric value of a digit string, most significant digit first. -/
def natVal (s : Str) : ℕ := s.foldl (fun acc c => 10 * acc + (c.toNat - 48)) 0

/-- Model of Python `float(s)` restricted to the strings the price extractors
ever hand to it (characters drawn from digits, `,` and `.`): it succeeds
exactly on numerals made of digits with at most one `.` and at least one
digit-or-dot character on some side, e.g. `float("1.2.3")`, `float(",")` and
`float("")` raise `ValueError`. -/
def pyFloat? (s : Str) : Option ℚ :=
  if s.all (fun c => c.isDigit || c = '.') then
    match splitDot s with
    | [a] => if a = [] then none else some (mkRat (natVal a) 1)
    | [a, b] =>
      if a = [] ∧ b = [] then none
      else some (mkRat (natVal a * 10 ^ b.length + natVal b) (10 ^ b.length))
    | _ => none
  else none

end PyStr

open PyStr

namespace AmazonBR

/-- `AmazonBRScraper._extract_price` (identical code is duplicated in
`MercadoLivreScraper._extract_price`): strip everything but digits, comma and
period; with both separators present remove every period and turn the comma
into a period; with only a comma turn it into a period; with only a period,
remove it when the string splits into exactly two parts and more than two
characters follow it; finally parse with `float`. -/
def extractPrice (priceText : Str) : Option ℚ :=
  if priceText = [] then none
  else
    let cleaned := residue priceText
    let cleaned :=
      if hasChar ',' cleaned ∧ hasChar '.' cleaned then
        commaToDot (removeChar '.' cleaned)
      else if hasChar ',' cleaned then
        commaToDot cleaned
      else if hasChar '.' cleaned then
        match splitDot cleaned with
        | [_, b] => if b.length > 2 then removeChar '.' cleaned else cleaned
        | _ => cleaned
      else cleaned
    pyFloat? cleaned

end AmazonBR

namespace MercadoLivre

/-- `MercadoLivreScraper._extract_price`: byte-for-byte the same algorithm as
`AmazonBRScraper._extract_price` (the repository duplicates it per scraper). -/
def extractPrice (priceText : Str) : Option ℚ :=
  if priceText = [] then none
  else
    let cleaned := residue priceText
    let cleaned :=
      if hasChar ',' cleaned ∧ hasChar '.' cleaned then
        commaToDot (removeChar '.' cleaned)
      else if hasChar ',' cleaned then
        commaToDot cleaned
      else if hasChar '.' cleaned then
        match splitDot cleaned with
        | [_, b] => if b.length > 2 then removeChar '.' cleaned else cleaned
        | _ => cleaned
      else cleaned
    pyFloat? cleaned

end MercadoLivre

namespace MagazineLuiza

/-- `MagazineLuizaScraper._extract_price` (the same code appears in
`LGScraper._extract_price`): like the Amazon version but with NO
period-only heuristic — a lone period is left in place and handed to
`float` unchanged. -/
def extractPrice (priceText : Str) : Option ℚ :=
  if priceText = [] then none
  else
    let cleaned := residue priceText
    let cleaned :=
      if hasChar ',' cleaned ∧ hasChar '.' cleaned then
        commaToDot (removeChar '.' cleaned)
      else if hasChar ',' cleaned then
        commaToDot cleaned
      else cleaned
    pyFloat? cleaned

end MagazineLuiza

example : AmazonBR.extractPrice (strL "R$ 1.234,56") = some (mkRat 123456 100) := by decide
example : AmazonBR.extractPrice (strL "1,234.56") = some (mkRat 123456 100000) := by decide
example : AmazonBR.extractPrice (strL "1.234") = some 1234 := by decide
example : AmazonBR.extractPrice (strL "12.34") = some (mkRat 1234 100) := by decide
example : AmazonBR.extractPrice (strL "1.234.567") = none := by decide
example : MagazineLuiza.extractPrice (strL "1.234") = some (mkRat 1234 1000) := by decide
example : AmazonBR.extractPrice (strL "R$ 0,01") = some (mkRat 1 100) := by decide

/-! ## Data model (`src/models/__init__.py`) and the DOM interface -/

/-- `ProductInfo` from `src/models/__init__.py` (pydantic model). The
`scraped_at` timestamp is a wall-clock effect and is not modelled. -/
structure ProductInfo where
  name : Str
  price : Option ℚ := none
  originalPrice : Option ℚ := none
  discountPercentage : Option ℚ := none
  availability : Str := strL "unknown"
  url : Str
  site : Str
  imageUrl : Option Str := none
  description : Option Str := none
  rating : Option ℚ := none
  reviewsCount : Option ℤ := none
  deliveryInfo : Option Str := none
deriving DecidableEq, Repr

/-- A DOM element as the extractors observe it: its stripped text
(`get_text(strip=True)`) and the attributes the extractors read. A missing
attribute is `none`. -/
structure Elem where
  text : Str := []
  href : Option Str := none
  attrTitle : Option Str := none
  attrSrc : Option Str := none
  attrDataSrc : Option Str := none
deriving DecidableEq, Repr

/-- A product-card container (one BeautifulSoup subtree). BeautifulSoup is an
external collaborator, so a container is modelled extensionally by the answers
it gives to the CSS queries the extractor issues: `selectOne` is
`container.select_one(sel)` and `selectAll` is `container.select(sel)`.
The regex-based numeric sub-extractions for rating / reviews count and the
keyword search for delivery info, which no claim touches and which never block
record creation, are modelled by their resulting values. -/
structure Container where
  selectOne : String → Option Elem
  selectAll : String → List Elem := fun _ => []
  ratingVal : Option ℚ := none
  reviewsCountVal : Option ℤ := none
  deliveryInfoVal : Option Str := none

/-- Build a container whose `select_one` answers come from an association
list of (selector, element) pairs; used for concrete test inputs. -/
def Container.ofList (l : List (String × Elem)) : Container :=
  { selectOne := fun sel => (l.find? (fun p => p.1 = sel)).map Prod.snd }

/-- Python truthiness of an optional float: `None` and `0.0` are falsy. -/
def truthyQ : Option ℚ → Bool
  | none => false
  | some v => v ≠ 0

/-- Python truthiness of an optional string: `None` and `""` are falsy. -/
def truthyS : Option Str → Bool
  | none => false
  | some s => s ≠ []

namespace Cascade

/-- Shared shape of the per-field selector cascades of the form
`for sel in [...]: el = container.select_one(sel); if el and el.get_text(strip=True): take it; break`:
first selector whose element exists and has non-empty stripped text. -/
def firstText (c : Container) (sels : List String) : Option Str :=
  sels.findSome? fun sel =>
    (c.selectOne sel).bind fun el => if el.text = [] then none else some el.text

/-- Shared shape of the link cascades
`for sel in [...]: el = select_one(sel); if el and el.get("href"): take it; break`:
first selector whose element exists and has a truthy `href`. -/
def firstHref (c : Container) (sels : List String) : Option Str :=
  sels.findSome? fun sel =>
    (c.selectOne sel).bind fun el => el.href.bind fun h => if h = [] then none else some h

/-- Shared shape of the price cascades of Amazon and Mercado Livre:
`price = None; for sel in [...]: el = select_one(sel); if el: price = extract(el.text); if price: break`.
Note that a selector whose element exists but fails to parse overwrites the
`price` variable, exactly as the Python assignment does. -/
def priceLoop (ext : Str → Option ℚ) (c : Container) :
    List String → Option ℚ → Option ℚ
  | [], price => price
  | sel :: rest, price =>
    match c.selectOne sel with
    | none => priceLoop ext c rest price
    | some el =>
      let p := ext el.text
      if truthyQ p then p else priceLoop ext c rest p

end Cascade

/-- The discount computation shared by the extractors:
`if original_price and price and original_price > price: discount = ((original_price - price) / original_price) * 100`
with Python truthiness on both floats. -/
def discountOf (originalPrice : Option ℚ) (price : Option ℚ) : Option ℚ :=
  match originalPrice, price with
  | some op, some p =>
    if op ≠ 0 ∧ p ≠ 0 ∧ p < op then some ((op - p) / op * 100) else none
  | _, _ => none

namespace AmazonBR

/-- Title cascade of `AmazonBRScraper.extract_product_info`. -/
def title (c : Container) : Option Str :=
  Cascade.firstText c
    ["h2 a span", ".a-size-mini span", ".a-size-base-plus", "h2 span", ".s-size-mini"]

/-- Link cascade of `AmazonBRScraper.extract_product_info`. -/
def rawUrl (c : Container) : Option Str :=
  Cascade.firstHref c ["h2 a", ".a-link-normal", "a[href*=\x27/dp/\x27]"]

/-- `if product_url.startswith("/"): product_url = f"https://www.amazon.com.br{product_url}"`. -/
def canonUrl (u : Str) : Str :=
  if strL "/" <+: u then strL "https://www.amazon.com.br" ++ u else u

/-- Price cascade of `AmazonBRScraper.extract_product_info`. -/
def price (c : Container) : Option ℚ :=
  Cascade.priceLoop extractPrice c
    [".a-price-whole", ".a-price .a-offscreen", ".a-price-range", ".a-price"] none

/-- Original-price lookup: single selector, parsed if the element exists. -/
def originalPrice (c : Container) : Option ℚ :=
  (c.selectOne ".a-price.a-text-price .a-offscreen").bind fun el => extractPrice el.text

/-- Image lookup: `select_one(".s-image, .a-dynamic-image")`, truthy `src`. -/
def imageUrl (c : Container) : Option Str :=
  (c.selectOne ".s-image, .a-dynamic-image").bind fun el =>
    el.attrSrc.bind fun s => if s = [] then none else some s

/-- One iteration of the Amazon per-container loop: `none` models the
`continue`s (no title, no link, no truthy price). -/
def processContainer (c : Container) : Option ProductInfo :=
  match title c with
  | none => none
  | some t =>
    match rawUrl c with
    | none => none
    | some u0 =>
      let u := canonUrl u0
      let p? := price c
      match p? with
      | none => none
      | some p =>
        if p = 0 then none
        else
          let op := originalPrice c
          some
            { name := t
              price := some p
              originalPrice := op
              discountPercentage := discountOf op (some p)
              availability := strL "available"
              url := u
              site := strL "Amazon BR"
              imageUrl := imageUrl c
              rating := c.ratingVal
              deliveryInfo := c.deliveryInfoVal }

/-- `AmazonBRScraper.extract_product_info` from the discovered container list
down: each container independently yields at most one record; there is no
deduplication and no truncation in this method. -/
def extractProductInfo (containers : List Container) : List ProductInfo :=
  containers.filterMap processContainer

end AmazonBR

namespace MercadoLivre

/-- Title extraction of `MercadoLivreScraper.extract_product_info`: the
`title` attribute of `img[title]` if truthy, otherwise the text of
`.ui-search-item__title`; an empty fallback text is falsy and leads to the
`if not title: continue` skip. -/
def title (c : Container) : Option Str :=
  match (c.selectOne "img[title]").bind (fun el =>
      if truthyS el.attrTitle then el.attrTitle else none) with
  | some t => some t
  | none =>
    (c.selectOne ".ui-search-item__title").bind fun el =>
      if el.text = [] then none else some el.text

/-- Link cascade of `MercadoLivreScraper.extract_product_info`. -/
def rawUrl (c : Container) : Option Str :=
  Cascade.firstHref c
    ["a[href*=\x27/MLB\x27]", ".ui-search-item__group__element a", ".shops__item-link",
     ".andes-card__link", "a[href]"]

/-- Price cascade of `MercadoLivreScraper.extract_product_info`. -/
def price (c : Container) : Option ℚ :=
  Cascade.priceLoop extractPrice c
    [".poly-price__current .andes-money-amount__fraction",
     ".poly-component__price .poly-price__current .andes-money-amount__fraction",
     ".andes-money-amount__fraction", ".price-tag-fraction",
     ".ui-search-price__second-line .price-tag-fraction", ".price-tag",
     ".andes-money-amount", ".price"] none

/-- Original-price cascade: the loop breaks at the first selector whose
element exists, whether or not its text parses. -/
def originalPrice (c : Container) : Option ℚ :=
  (([".andes-money-amount--previous .andes-money-amount__fraction",
     "s .andes-money-amount__fraction",
     ".poly-component__price s .andes-money-amount__fraction"].findSome?
      c.selectOne)).bind fun el => extractPrice el.text

/-- Image cascade: first selector whose element exists with truthy `src`. -/
def imageUrl (c : Container) : Option Str :=
  ["img[src*=\x27mlstatic.com\x27]", ".ui-search-result-image__element",
   ".poly-component__picture", "img[data-src]", "img"].findSome? fun sel =>
    (c.selectOne sel).bind fun el =>
      el.attrSrc.bind fun s => if s = [] then none else some s

/-- One iteration of the Mercado Livre per-container loop. -/
def processContainer (c : Container) : Option ProductInfo :=
  match title c with
  | none => none
  | some t =>
    match rawUrl c with
    | none => none
    | some u =>
      match price c with
      | none => none
      | some p =>
        if p = 0 then none
        else
          let op := originalPrice c
          some
            { name := t
              price := some p
              originalPrice := op
              discountPercentage := discountOf op (some p)
              availability := strL "available"
              url := u
              site := strL "Mercado Livre"
              imageUrl := imageUrl c
              rating := c.ratingVal
              reviewsCount := c.reviewsCountVal }

/-- `MercadoLivreScraper.extract_product_info` from the discovered container
list down: no deduplication, no truncation. -/
def extractProductInfo (containers : List Container) : List ProductInfo :=
  containers.filterMap processContainer

end MercadoLivre

/-- Python `sub in s` on strings. -/
def containsStr (sub s : Str) : Bool := s.tails.any (fun t => sub.isPrefixOf t)

namespace MagazineLuiza

/-- Name loop of `MagazineLuizaScraper.extract_product_info`: each selector
with an element overwrites `name` with its truthy `title` attribute, else its
non-empty text; the loop breaks as soon as the current `name` is truthy and
longer than 5 characters. -/
def nameLoop (c : Container) : List String → Option Str → Option Str
  | [], name => name
  | sel :: rest, name =>
    match c.selectOne sel with
    | none => nameLoop c rest name
    | some el =>
      let name' :=
        if truthyS el.attrTitle then el.attrTitle
        else if el.text ≠ [] then some el.text
        else name
      if (match name' with | some n => n.length > 5 | none => False : Bool) then name'
      else nameLoop c rest name'

def name (c : Container) : Option Str :=
  nameLoop c
    ["h2", "h3", "h4", "[data-testid*=\x27title\x27]", "[data-testid*=\x27name\x27]",
     ".product-title", ".product-name", "a[title]", "[title]"] none

/-- The guard `"R$" in price_text or ("," in price_text and any(c.isdigit() ...))`. -/
def priceTextCond (t : Str) : Bool :=
  containsStr (strL "R$") t || (containsStr (strL ",") t && t.any Char.isDigit)

/-- Truthiness-and-positivity used by the inner break `if price and price > 0`. -/
def truthyPos : Option ℚ → Bool
  | none => false
  | some v => v ≠ 0 && 0 < v

/-- Inner loop over `container.select(price_selector)`: elements failing the
text guard are skipped without touching `price`; an element passing the guard
overwrites `price` with its parse result and breaks when truthy and positive. -/
def priceScan : List Elem → Option ℚ → Option ℚ
  | [], price => price
  | el :: rest, price =>
    if priceTextCond el.text then
      let p := extractPrice el.text
      if truthyPos p then p else priceScan rest p
    else priceScan rest price

/-- Outer loop over the price selectors, breaking on a truthy `price`. -/
def priceLoop (c : Container) : List String → Option ℚ → Option ℚ
  | [], price => price
  | sel :: rest, price =>
    let price' := priceScan (c.selectAll sel) price
    if truthyQ price' then price' else priceLoop c rest price'

def price (c : Container) : Option ℚ :=
  priceLoop c
    ["[data-testid*=\x27price\x27]", ".price", ".valor", "[class*=\x27price\x27]",
     "span:contains(\x27R$\x27)", "[class*=\x27sc-k\x27] span", "strong", "b"] none

/-- First URL stage: selectors with truthy `href` whose value contains
`/p/` or `produto`. -/
def urlStage1 (c : Container) : Option Str :=
  ["a[href*=\x27/p/\x27]", "a[href*=\x27produto\x27]", "a[href]"].findSome? fun sel =>
    (c.selectOne sel).bind fun el => el.href.bind fun h =>
      if h = [] then none
      else if containsStr (strL "/p/") h || containsStr (strL "produto") h then some h
      else none

/-- Full URL resolution. The fallback stage indexes `link_elem["href"]`
directly, so an `a[href]` match without an `href` attribute raises `KeyError`
and the per-container `except` skips the container: that is the outer `none`.
`some none` means "no link at all" (the record will carry the base URL). -/
def resolveUrl (c : Container) : Option (Option Str) :=
  match urlStage1 c with
  | some h => some (some h)
  | none =>
    match c.selectOne "a[href]" with
    | none => some none
    | some el =>
      match el.href with
      | some h => some (some h)
      | none => none

/-- `if product_url and not product_url.startswith("http"): if product_url.startswith("/"): prepend domain`. -/
def canonUrl (u : Str) : Str :=
  if ¬ (strL "http" <+: u) ∧ strL "/" <+: u then
    strL "https://www.magazineluiza.com.br" ++ u
  else u

/-- Image lookup: `select_one("img[src], img[data-src]")`,
then `img.get("src") or img.get("data-src")` (Python `or`). -/
def imageUrl (c : Container) : Option Str :=
  (c.selectOne "img[src], img[data-src]").bind fun el =>
    if truthyS el.attrSrc then el.attrSrc else el.attrDataSrc

/-- One iteration of the Magazine Luiza per-container loop, threading the
`seen_urls` deduplication set (represented as the list of URLs added so far).
Returns the emitted record and the updated set, or `none` when the container
is skipped (invalid name, falsy price, `KeyError`, or duplicated URL). -/
def processContainer (baseUrl : Str) (seen : List Str) (c : Container) :
    Option (ProductInfo × List Str) :=
  match name c with
  | none => none
  | some n =>
    if n.length < 3 then none
    else
      let p? := price c
      if ¬ truthyQ p? then none
      else
        match resolveUrl c with
        | none => none
        | some u? =>
          let u? := u?.map canonUrl
          if (match u? with | some u => u ≠ [] && u ∈ seen | none => false : Bool) then
            none
          else
            let seen' := match u? with
              | some u => if u ≠ [] then seen ++ [u] else seen
              | none => seen
            let recUrl := match u? with
              | some u => if u ≠ [] then u else baseUrl
              | none => baseUrl
            some
              ({ name := n
                 price := p?
                 url := recUrl
                 imageUrl := imageUrl c
                 site := strL "Magazine Luiza"
                 availability := strL "Disponível" }, seen')

/-- The container loop of `MagazineLuizaScraper.extract_product_info`,
starting from the empty `seen_urls` set. -/
def extractLoop (baseUrl : Str) (seen : List Str) : List Container → List ProductInfo
  | [] => []
  | c :: cs =>
    match processContainer baseUrl seen c with
    | none => extractLoop baseUrl seen cs
    | some (r, seen') => r :: extractLoop baseUrl seen' cs

def extractProductInfo (baseUrl : Str) (containers : List Container) : List ProductInfo :=
  extractLoop baseUrl [] containers

end MagazineLuiza

namespace LG

/-- `LGScraper.scrape` override: logs and returns the empty list for every
product name and max-results value, attempting no fetch. -/
def scrape (_productName : Str) (_maxResults : ℕ) : List ProductInfo := []

end LG

/-! ## Aggregation (`_results_aggregator_agent`) -/

/-- The sort key `lambda p: p.price or float("inf")` of the results
aggregator: by Python truthiness a missing price AND a `0.0` price both map to
`float("inf")`. `none` here stands for infinity. -/
def priceKey (p : ProductInfo) : Option ℚ :=
  match p.price with
  | none => none
  | some v => if v = 0 then none else some v

/-- `a ≤ b` on sort keys, `none` being `float("inf")`. -/
def keyLE (a b : Option ℚ) : Bool :=
  match a, b with
  | _, none => true
  | none, some _ => false
  | some x, some y => x ≤ y

/-- `a < b` on sort keys, `none` being `float("inf")`. -/
def keyLT (a b : Option ℚ) : Bool :=
  match a, b with
  | none, _ => false
  | some _, none => true
  | some x, some y => x < y

/-- Insert a record into an already sorted list, before the first record whose
key is not smaller: together with `pySortByPrice` this is the unique stable
ascending sort by `priceKey`, the behaviour of Python's `list.sort(key=...)`
(Timsort is stable). -/
def insertByPrice (r : ProductInfo) : List ProductInfo → List ProductInfo
  | [] => [r]
  | s :: rest =>
    if keyLT (priceKey s) (priceKey r) then s :: insertByPrice r rest
    else r :: s :: rest

/-- Model of `state["products"].sort(key=lambda p: p.price or float("inf"))`. -/
def pySortByPrice : List ProductInfo → List ProductInfo
  | [] => []
  | r :: rest => insertByPrice r (pySortByPrice rest)

/-! ## Orchestrator (`src/agents/scraping_orchestrator.py`) -/

namespace Orchestrator

/-- Outcome of one `scraper.scrape(product_name, max_results)` call as
observed by a site agent: a product list, or a raised exception caught by the
agent's `except`. -/
inductive SiteOutcome where
  | ok (products : List ProductInfo)
  | raise
deriving DecidableEq

/-- An oracle giving each scraper-map key its scrape outcome for the run. -/
abbrev Oracle := String → SiteOutcome

/-- The error strings accumulated in `state["errors"]`, by provenance:
`f"Site não suportado: {site}"`, the per-agent
`f"Erro no scraping ...: {e}"` (tagged with the scraper key), and the
top-level `f"Erro na orquestração: {e}"`. -/
inductive ErrMsg where
  | unsupportedSite (site : String)
  | siteError (key : String)
  | orchestration
deriving DecidableEq, Repr

/-- `ScrapingState`: the shared graph state. The `messages` chat log is
cosmetic (never read by any decision) and is not modelled. -/
structure OrchState where
  targetSites : List String
  products : List ProductInfo := []
  errors : List ErrMsg := []
  completedSites : List String := []

/-- The keys of the `self.scrapers` registry built in
`ScrapingOrchestrator.__init__`. -/
def scrapersKeys : List String :=
  ["amazon", "mercadolivre", "americanas", "magazine_luiza", "casas_bahia",
   "pontofrio", "carrefour", "samsung", "lg"]

/-- `supported_sites` from `_coordinator_agent`. -/
def supportedSites : List String :=
  ["amazon", "mercadolivre", "magazine_luiza", "americanas", "casas_bahia",
   "pontofrio", "carrefour", "samsung"]

/-- Python `site.lower()` on the ASCII site identifiers, by characters. -/
def pyLower (s : String) : String := ⟨s.data.map Char.toLower⟩

/-- The validation loop of `_coordinator_agent`: lowercase each requested
site, keep it if supported, otherwise record an unsupported-site error. -/
def coordinatorValidate : List String → List String × List ErrMsg
  | [] => ([], [])
  | site :: rest =>
    let (av, errs) := coordinatorValidate rest
    if supportedSites.contains (pyLower site) then (pyLower site :: av, errs)
    else (av, ErrMsg.unsupportedSite site :: errs)

/-- `_coordinator_agent`: expand the `"all"` sentinel (replacing the whole
requested list), validate against the supported set, and store the validated
worklist back into the request. -/
def coordinatorAgent (st : OrchState) : OrchState :=
  let ts :=
    if st.targetSites.contains "all" then
      ["amazon", "mercadolivre", "magazine_luiza", "americanas", "casas_bahia"]
    else st.targetSites
  let va := coordinatorValidate ts
  { st with targetSites := va.1, errors := st.errors ++ va.2 }

/-- `has_amazon = any(site in ["amazon", "all"] for site in target_sites)`. -/
def hasAmazon (ts : List String) : Bool := ts.any (["amazon", "all"].contains ·)

def hasMercadolivre (ts : List String) : Bool :=
  ts.any (["mercadolivre", "mercado livre", "all"].contains ·)

def hasMagazineLuiza (ts : List String) : Bool :=
  ts.any (["magazine_luiza", "magazineluiza", "magazine luiza", "all"].contains ·)

def hasAmericanas (ts : List String) : Bool := ts.any (["americanas"].contains ·)

def hasCasasBahia (ts : List String) : Bool :=
  ts.any (["casas_bahia", "casasbahia", "casas bahia"].contains ·)

def hasPontofrio (ts : List String) : Bool :=
  ts.any (["pontofrio", "ponto frio"].contains ·)

def hasCarrefour (ts : List String) : Bool := ts.any (["carrefour", "all"].contains ·)

def hasSamsung (ts : List String) : Bool := ts.any (["samsung"].contains ·)

/-- `_decide_scrapers`: the conditional-edge function out of the coordinator
node, returning a branch label. -/
def decideScrapers (st : OrchState) : String :=
  let ts := st.targetSites
  if ts = [] then "end"
  else
    let siteCount :=
      [hasAmazon ts, hasMercadolivre ts, hasMagazineLuiza ts, hasAmericanas ts,
       hasCasasBahia ts, hasPontofrio ts, hasCarrefour ts, hasSamsung ts].count true
    if siteCount > 1 then "multiple"
    else if hasAmazon ts then "amazon"
    else if hasMercadolivre ts then "mercadolivre"
    else if hasMagazineLuiza ts then "magazine_luiza"
    else if hasAmericanas ts then "americanas"
    else if hasCasasBahia ts then "casas_bahia"
    else if hasPontofrio ts then "pontofrio"
    else if hasCarrefour ts then "carrefour"
    else if hasSamsung ts then "samsung"
    else "end"

/-- `_check_remaining_scrapers`: the conditional-edge function out of every
site node, returning the next pending site in the hardcoded order
mercadolivre → carrefour → magazine_luiza → americanas → casas_bahia →
pontofrio → samsung, or `"done"`. -/
def checkRemaining (st : OrchState) : String :=
  let ts := st.targetSites
  let cs := st.completedSites
  if hasMercadolivre ts && !cs.contains "mercadolivre" then "mercadolivre"
  else if hasCarrefour ts && !cs.contains "carrefour" then "carrefour"
  else if hasMagazineLuiza ts && !cs.contains "magazine_luiza" then "magazine_luiza"
  else if hasAmericanas ts && !cs.contains "americanas" then "americanas"
  else if hasCasasBahia ts && !cs.contains "casas_bahia" then "casas_bahia"
  else if hasPontofrio ts && !cs.contains "pontofrio" then "pontofrio"
  else if hasSamsung ts && !cs.contains "samsung" then "samsung"
  else "done"

/-- The nodes of the LangGraph state graph built in `_build_graph`. -/
inductive Node where
  | coordinator
  | amazonScraper
  | mercadolivreScraper
  | carrefourScraper
  | magazineLuizaScraper
  | americanasScraper
  | casasBahiaScraper
  | pontofrioScraper
  | samsungScraper
  | lgScraper
  | resultsAggregator
deriving DecidableEq, Repr

/-- The scraper-registry key each site node's agent uses. -/
def siteKey? : Node → Option String
  | .amazonScraper => some "amazon"
  | .mercadolivreScraper => some "mercadolivre"
  | .carrefourScraper => some "carrefour"
  | .magazineLuizaScraper => some "magazine_luiza"
  | .americanasScraper => some "americanas"
  | .casasBahiaScraper => some "casas_bahia"
  | .pontofrioScraper => some "pontofrio"
  | .samsungScraper => some "samsung"
  | .lgScraper => some "lg"
  | _ => none

/-- The common body of the nine `_*_scraper_agent` methods: call
`self.scrapers[key].scrape(...)`; on success extend `products` and mark the
site completed, on an exception append a site error (and do NOT mark the site
completed). -/
def siteAgent (oracle : Oracle) (key : String) (st : OrchState) : OrchState :=
  match oracle key with
  | .ok ps =>
    { st with
      products := st.products ++ ps
      completedSites := st.completedSites ++ [key] }
  | .raise => { st with errors := st.errors ++ [ErrMsg.siteError key] }

/-- The conditional-edge table out of the `coordinator` node in
`_build_graph` (`"multiple"` deliberately starts at the Amazon node). -/
def coordinatorEdges : String → Option Node := fun l =>
  if l = "amazon" then some .amazonScraper
  else if l = "mercadolivre" then some .mercadolivreScraper
  else if l = "magazine_luiza" then some .magazineLuizaScraper
  else if l = "americanas" then some .americanasScraper
  else if l = "casas_bahia" then some .casasBahiaScraper
  else if l = "pontofrio" then some .pontofrioScraper
  else if l = "carrefour" then some .carrefourScraper
  else if l = "samsung" then some .samsungScraper
  else if l = "lg" then some .lgScraper
  else if l = "multiple" then some .amazonScraper
  else if l = "end" then some .resultsAggregator
  else none

/-- The conditional-edge tables out of each site node in `_build_graph`.
A label absent from a node's table makes LangGraph raise at runtime
(modelled as a crash of the graph invocation). Note that no node's own
label appears in its table. -/
def pathMap : Node → String → Option Node
  | .amazonScraper, l =>
    if l = "mercadolivre" then some .mercadolivreScraper
    else if l = "carrefour" then some .carrefourScraper
    else if l = "magazine_luiza" then some .magazineLuizaScraper
    else if l = "americanas" then some .americanasScraper
    else if l = "casas_bahia" then some .casasBahiaScraper
    else if l = "pontofrio" then some .pontofrioScraper
    else if l = "samsung" then some .samsungScraper
    else if l = "done" then some .resultsAggregator
    else none
  | .mercadolivreScraper, l =>
    if l = "carrefour" then some .carrefourScraper
    else if l = "magazine_luiza" then some .magazineLuizaScraper
    else if l = "americanas" then some .americanasScraper
    else if l = "casas_bahia" then some .casasBahiaScraper
    else if l = "pontofrio" then some .pontofrioScraper
    else if l = "samsung" then some .samsungScraper
    else if l = "done" then some .resultsAggregator
    else none
  | .carrefourScraper, l =>
    if l = "magazine_luiza" then some .magazineLuizaScraper
    else if l = "americanas" then some .americanasScraper
    else if l = "casas_bahia" then some .casasBahiaScraper
    else if l = "pontofrio" then some .pontofrioScraper
    else if l = "samsung" then some .samsungScraper
    else if l = "done" then some .resultsAggregator
    else none
  | .magazineLuizaScraper, l =>
    if l = "americanas" then some .americanasScraper
    else if l = "casas_bahia" then some .casasBahiaScraper
    else if l = "pontofrio" then some .pontofrioScraper
    else if l = "samsung" then some .samsungScraper
    else if l = "done" then some .resultsAggregator
    else none
  | .americanasScraper, l =>
    if l = "casas_bahia" then some .casasBahiaScraper
    else if l = "pontofrio" then some .pontofrioScraper
    else if l = "samsung" then some .samsungScraper
    else if l = "done" then some .resultsAggregator
    else none
  | .casasBahiaScraper, l =>
    if l = "pontofrio" then some .pontofrioScraper
    else if l = "samsung" then some .samsungScraper
    else if l = "done" then some .resultsAggregator
    else none
  | .pontofrioScraper, l =>
    if l = "samsung" then some .samsungScraper
    else if l = "done" then some .resultsAggregator
    else none
  | .samsungScraper, l =>
    if l = "done" then some .resultsAggregator else none
  | .lgScraper, l =>
    if l = "done" then some .resultsAggregator else none
  | _, _ => none

/-- `_results_aggregator_agent`: sort the accumulated products by price
ascending (missing price last via Python truthiness of the key). -/
def resultsAggregatorAgent (st : OrchState) : OrchState :=
  { st with products := pySortByPrice st.products }

/-- Result of one graph invocation: normal completion, or an exception
escaping `self.graph.invoke` (a conditional edge returned a label missing
from its path map). `outOfFuel` is a modelling artefact that no run with
fuel ≥ 11 can reach, since consecutive visited site nodes move strictly
forward along the node chain. -/
inductive RunStatus where
  | finished (st : OrchState)
  | crashed
  | outOfFuel

/-- Execution of the graph from a node, also returning the list of site
nodes visited in order. -/
def graphRun (oracle : Oracle) : ℕ → Node → OrchState → RunStatus × List Node
  | 0, _, _ => (.outOfFuel, [])
  | fuel + 1, node, st =>
    if node = .resultsAggregator then (.finished (resultsAggregatorAgent st), [])
    else
      match siteKey? node with
      | none => (.crashed, [])
      | some key =>
        let st' := siteAgent oracle key st
        match pathMap node (checkRemaining st') with
        | none => (.crashed, [node])
        | some next =>
          let r := graphRun oracle fuel next st'
          (r.1, node :: r.2)

/-- The final `ScrapingResult` (request echo and wall-clock timing omitted). -/
structure ScrapingResultM where
  products : List ProductInfo
  errors : List ErrMsg
  totalFound : ℕ
deriving DecidableEq, Repr

/-- `execute_scraping`: run the coordinator, enter the graph at the node the
coordinator's conditional edge selects, and build the final result; any
exception escaping the graph is caught and yields an empty result with a
single orchestration error (the state accumulated so far is discarded). -/
def executeScraping (oracle : Oracle) (targetSites : List String) :
    ScrapingResultM × List Node :=
  let st1 := coordinatorAgent { targetSites := targetSites }
  match coordinatorEdges (decideScrapers st1) with
  | none => (⟨[], [ErrMsg.orchestration], 0⟩, [])
  | some node =>
    match graphRun oracle 12 node st1 with
    | (.finished st, tr) => (⟨st.products, st.errors, st.products.length⟩, tr)
    | (_, tr) => (⟨[], [ErrMsg.orchestration], 0⟩, tr)

/-- Position of each node along the hardcoded execution chain
amazon → mercadolivre → carrefour → magazine_luiza → americanas →
casas_bahia → pontofrio → samsung (the aggregator after everything). -/
def chainIdx : Node → ℕ
  | .coordinator => 0
  | .amazonScraper => 1
  | .mercadolivreScraper => 2
  | .carrefourScraper => 3
  | .magazineLuizaScraper => 4
  | .americanasScraper => 5
  | .casasBahiaScraper => 6
  | .pontofrioScraper => 7
  | .samsungScraper => 8
  | .lgScraper => 9
  | .resultsAggregator => 10

/-- The requested-site flag the routing functions test for a branch label. -/
def labelFlag (l : String) (ts : List String) : Bool :=
  match l with
  | "amazon" => hasAmazon ts
  | "mercadolivre" => hasMercadolivre ts
  | "magazine_luiza" => hasMagazineLuiza ts
  | "americanas" => hasAmericanas ts
  | "casas_bahia" => hasCasasBahia ts
  | "pontofrio" => hasPontofrio ts
  | "carrefour" => hasCarrefour ts
  | "samsung" => hasSamsung ts
  | _ => false

/-- The requested-site flag of a site node. -/
def nodeFlag (n : Node) (ts : List String) : Bool :=
  match siteKey? n with
  | some l => labelFlag l ts
  | none => false

end Orchestrator

/-- Concrete record with price 10 for the aggregation example. -/
def rec10 : ProductInfo :=
  { name := strL "ten", price := some 10, url := strL "https://s/10", site := strL "S" }

/-- Concrete record with price 30 for the aggregation example. -/
def rec30 : ProductInfo :=
  { name := strL "thirty", price := some 30, url := strL "https://s/30", site := strL "S" }

/-- Concrete record with no price for the aggregation example. -/
def recNone : ProductInfo :=
  { name := strL "nothing", price := none, url := strL "https://s/n", site := strL "S" }

/-- Amazon test container: title, link and current price but no
original-price element. -/
def amzContainerC6 : Container :=
  Container.ofList
    [("h2 a span", { text := strL "Produto Teste" }),
     ("h2 a", { href := some (strL "/dp/X1") }),
     (".a-price-whole", { text := strL "150,00" })]

/-- The record the Amazon extractor emits for `amzContainerC6`. -/
def amzRecordC6 : ProductInfo :=
  { name := strL "Produto Teste"
    price := some 150
    availability := strL "available"
    url := strL "https://www.amazon.com.br/dp/X1"
    site := strL "Amazon BR" }

/-- Amazon test container with a valid name and link but no price element. -/
def amzNoPriceContainer : Container :=
  Container.ofList
    [("h2 a span", { text := strL "Nome Valido Sem Preco" }),
     ("h2 a", { href := some (strL "/dp/Z9") })]

/-- The separator kind occurring last in the string is the comma. -/
def lastSepIsComma (s : Str) : Bool :=
  s.reverse.find? (fun c => c = ',' || c = '.') = some ','

/-- Modelled from the spec (§4.1), for comparison with the code: with both
`,` and `.` present, the character kind appearing later in the string is the
decimal separator; the earlier-occurring separator is removed entirely and
the remaining separator is converted to `.`, then the result is parsed as a
decimal. -/
def specMixedSeparatorRule (r : Str) : Option ℚ :=
  let dec : Char := if lastSepIsComma r then ',' else '.'
  let other : Char := if lastSepIsComma r then '.' else ','
  pyFloat? ((r.filter (· ≠ other)).map (fun c => if c = dec then '.' else c))

/-- The decimal digit character for `k < 10` (and `'0'` beyond). -/
def digitChar : ℕ → Char
  | 0 => '0' | 1 => '1' | 2 => '2' | 3 => '3' | 4 => '4'
  | 5 => '5' | 6 => '6' | 7 => '7' | 8 => '8' | 9 => '9'
  | _ => '0'

/-- The usual decimal rendering of a natural number, most significant digit
first: the string form of an integer value. -/
def renderNat (n : ℕ) : Str :=
  if n < 10 then [digitChar n]
  else renderNat (n / 10) ++ [digitChar (n % 10)]
termination_by n
decreasing_by exact Nat.div_lt_self (by omega) (by omega)

/-- Two-digit rendering of `k < 100`: the fractional part of a price string. -/
def padTwo (k : ℕ) : Str := if k < 10 then '0' :: [digitChar k] else renderNat k

/-- The string form of the decimal value `m / 100` with exactly two decimal
places, e.g. `renderCents 123456 = "1234.56"`. -/
def renderCents (m : ℕ) : Str := renderNat (m / 100) ++ '.' :: padTwo (m % 100)

/-- Build a container with both `select_one` and `select` answers from
association lists; used for concrete test inputs. -/
def Container.ofLists (l : List (String × Elem)) (m : List (String × List Elem)) :
    Container :=
  { selectOne := fun sel => (l.find? (fun p => p.1 = sel)).map Prod.snd
    selectAll := fun sel => ((m.find? (fun p => p.1 = sel)).map Prod.snd).getD [] }

/-- Magazine Luiza test container with a name and price but no link at all. -/
def mglNoLinkA : Container :=
  Container.ofLists [("h2", { text := strL "Produto Um Teste" })]
    [(".price", [{ text := strL "R$ 10,00" }])]

/-- Second link-less Magazine Luiza container, different name. -/
def mglNoLinkB : Container :=
  Container.ofLists [("h2", { text := strL "Produto Dois Teste" })]
    [(".price", [{ text := strL "R$ 10,00" }])]

/-- The record `mglNoLinkA` yields against base URL `"https://busca"`. -/
def mglRecNoLinkA : ProductInfo :=
  { name := strL "Produto Um Teste", price := some 10, url := strL "https://busca",
    site := strL "Magazine Luiza", availability := strL "Disponível" }

/-- The record `mglNoLinkB` yields against base URL `"https://busca"`. -/
def mglRecNoLinkB : ProductInfo :=
  { name := strL "Produto Dois Teste", price := some 10, url := strL "https://busca",
    site := strL "Magazine Luiza", availability := strL "Disponível" }

/-- Magazine Luiza test container resolving the product URL `/p/123`. -/
def mglDupA : Container :=
  Container.ofLists
    [("h2", { text := strL "Produto Um Teste" }),
     ("a[href]", { href := some (strL "/p/123") })]
    [(".price", [{ text := strL "R$ 10,00" }])]

/-- Second container resolving the same product URL `/p/123`. -/
def mglDupB : Container :=
  Container.ofLists
    [("h2", { text := strL "Produto Dois Teste" }),
     ("a[href]", { href := some (strL "/p/123") })]
    [(".price", [{ text := strL "R$ 10,00" }])]

/-- The single record the Magazine Luiza extractor emits for `[mglDupA, mglDupB]`. -/
def mglDupRecA : ProductInfo :=
  { name := strL "Produto Um Teste", price := some 10,
    url := strL "https://www.magazineluiza.com.br/p/123",
    site := strL "Magazine Luiza", availability := strL "Disponível" }

/-- A product returned by the Amazon scrape call in the orchestration tests. -/
def prodAmz : ProductInfo :=
  { name := strL "Echo Dot", price := some 10, url := strL "https://amz/1",
    site := strL "Amazon BR" }

/-- A product returned by the Carrefour scrape call in the orchestration tests. -/
def prodCrf : ProductInfo :=
  { name := strL "Echo Show", price := some 20, url := strL "https://crf/1",
    site := strL "Carrefour" }

/-- Site outcomes for the failure-isolation scenario: Amazon succeeds with one
product, Mercado Livre raises, every other site (Carrefour included) would
succeed. -/
def oracleC1 : Orchestrator.Oracle := fun key =>
  if key = "mercadolivre" then .raise
  else if key = "amazon" then .ok [prodAmz]
  else if key = "carrefour" then .ok [prodCrf]
  else .ok []

/-- Site outcomes for the unrequested-Amazon scenario: Amazon would return a
product; all other sites return nothing. -/
def oracleC8 : Orchestrator.Oracle := fun key =>
  if key = "amazon" then .ok [prodAmz] else .ok []

/-- Ascending order on records as compared by the aggregator's sort key. -/
def recLE (r s : ProductInfo) : Prop := keyLE (priceKey r) (priceKey s) = true

/-! ## Sorting lemmas for the aggregator -/

lemma keyLE_of_keyLT_false {a b : Option ℚ} (h : keyLT a b = false) :
    keyLE b a = true := by
  cases a <;> cases b <;> simp_all [keyLT, keyLE]

lemma keyLE_of_keyLT {a b : Option ℚ} (h : keyLT a b = true) : keyLE a b = true := by
  cases a <;> cases b <;> simp_all [keyLT, keyLE]
  all_goals exact le_of_lt h

lemma keyLE_trans {a b c : Option ℚ} (h₁ : keyLE a b = true) (h₂ : keyLE b c = true) :
    keyLE a c = true := by
  cases a <;> cases b <;> cases c <;> simp_all [keyLE]
  all_goals exact le_trans h₁ h₂

lemma insertByPrice_perm (r : ProductInfo) (l : List ProductInfo) :
    (insertByPrice r l).Perm (r :: l) := by
  induction l with
  | nil => simp [insertByPrice]
  | cons s rest ih =>
    cases hc : keyLT (priceKey s) (priceKey r) with
    | true =>
      simp only [insertByPrice, hc, if_true]
      exact (ih.cons s).trans (List.Perm.swap r s rest)
    | false =>
      simp [insertByPrice, hc]

lemma insertByPrice_pairwise (r : ProductInfo) (l : List ProductInfo)
    (h : l.Pairwise recLE) : (insertByPrice r l).Pairwise recLE := by
  induction l with
  | nil => simp [insertByPrice, recLE, List.Pairwise.nil]
  | cons s rest ih =>
    rcases List.pairwise_cons.mp h with ⟨hs, hrest⟩
    cases hc : keyLT (priceKey s) (priceKey r) with
    | true =>
      simp only [insertByPrice, hc, if_true]
      refine List.pairwise_cons.mpr ⟨?_, ih hrest⟩
      intro x hx
      rcases List.mem_cons.mp ((insertByPrice_perm r rest).mem_iff.mp hx) with rfl | hx
      · exact keyLE_of_keyLT hc
      · exact hs x hx
    | false =>
      simp only [insertByPrice, hc, if_false, Bool.false_eq_true]
      refine List.pairwise_cons.mpr ⟨?_, h⟩
      intro x hx
      rcases List.mem_cons.mp hx with rfl | hx
      · exact keyLE_of_keyLT_false hc
      · exact keyLE_trans (keyLE_of_keyLT_false hc) (hs x hx)

lemma pySortByPrice_perm (l : List ProductInfo) : (pySortByPrice l).Perm l := by
  induction l with
  | nil => simp [pySortByPrice]
  | cons r rest ih =>
    exact (insertByPrice_perm r (pySortByPrice rest)).trans (ih.cons r)

lemma pySortByPrice_pairwise (l : List ProductInfo) :
    (pySortByPrice l).Pairwise recLE := by
  induction l with
  | nil => simp [pySortByPrice]
  | cons r rest ih => exact insertByPrice_pairwise r _ ih

/-- C5. Aggregation sort order: on any accumulated record list (whose present
prices are truthy, as every extractor guarantees), the aggregator returns a
permutation of the records that is sorted ascending by price, with records
whose price is absent after every record that has a price; on the prices
`[30, None, 10]` the output order is `[10, 30, None]`. -/
theorem aggregator_sorts_ascending_missing_price_last
    (rs : List ProductInfo)
    (hpos : ∀ r ∈ rs, truthyQ r.price = true ∨ r.price = none) :
    (pySortByPrice rs).Perm rs ∧
    (pySortByPrice rs).Pairwise (fun r s =>
      (∀ vr vs, r.price = some vr → s.price = some vs → vr ≤ vs) ∧
      (r.price = none → s.price = none)) ∧
    pySortByPrice [rec30, recNone, rec10] = [rec10, rec30, recNone] := by
  refine ⟨pySortByPrice_perm rs, ?_, by decide⟩
  have hmem : ∀ r ∈ pySortByPrice rs, truthyQ r.price = true ∨ r.price = none :=
    fun r hr => hpos r ((pySortByPrice_perm rs).mem_iff.mp hr)
  refine List.Pairwise.imp_of_mem ?_ (pySortByPrice_pairwise rs)
  intro a b ha hb hab
  have hab' : keyLE (priceKey a) (priceKey b) = true := hab
  constructor
  · intro vr vs hvr hvs
    have hvr0 : vr ≠ 0 := by
      rcases hmem a ha with h | h
      · rw [hvr] at h; simpa [truthyQ] using h
      · rw [hvr] at h; exact absurd h (by simp)
    have hvs0 : vs ≠ 0 := by
      rcases hmem b hb with h | h
      · rw [hvs] at h; simpa [truthyQ] using h
      · rw [hvs] at h; exact absurd h (by simp)
    rw [show priceKey a = some vr by simp [priceKey, hvr, hvr0],
        show priceKey b = some vs by simp [priceKey, hvs, hvs0]] at hab'
    simpa [keyLE] using hab'
  · intro hna
    cases hpb : b.price with
    | none => rfl
    | some v =>
      rcases hmem b hb with h | h
      · rw [hpb] at h
        have hv : v ≠ 0 := by simpa [truthyQ] using h
        rw [show priceKey a = none by simp [priceKey, hna],
            show priceKey b = some v by simp [priceKey, hpb, hv]] at hab'
        simp [keyLE] at hab'
      · rw [hpb] at h; exact absurd h (by simp)

/-- Witness for C5 at the concrete list with prices `[30, None, 10]`. -/
theorem aggregator_sorts_ascending_missing_price_last_witness :
    (pySortByPrice [rec30, recNone, rec10]).Perm [rec30, recNone, rec10] ∧
    (pySortByPrice [rec30, recNone, rec10]).Pairwise (fun r s =>
      (∀ vr vs, r.price = some vr → s.price = some vs → vr ≤ vs) ∧
      (r.price = none → s.price = none)) ∧
    pySortByPrice [rec30, recNone, rec10] = [rec10, rec30, recNone] :=
  aggregator_sorts_ascending_missing_price_last [rec30, recNone, rec10] (by decide)

/-! ## Positivity of parsed prices -/

lemma pyFloat?_nonneg {s : Str} {v : ℚ} (h : pyFloat? s = some v) : 0 ≤ v := by
  unfold pyFloat? at h
  split at h
  · split at h
    · split at h
      · exact absurd h (by simp)
      · obtain rfl : mkRat _ 1 = v := by simpa using h
        rw [Rat.mkRat_eq_div]; positivity
    · split at h
      · exact absurd h (by simp)
      · obtain rfl : mkRat _ _ = v := by simpa using h
        rw [Rat.mkRat_eq_div]; positivity
    · exact absurd h (by simp)
  · exact absurd h (by simp)

lemma AmazonBR.amazonExtractPrice_nonneg {s : Str} {v : ℚ}
    (h : AmazonBR.extractPrice s = some v) : 0 ≤ v := by
  unfold AmazonBR.extractPrice at h
  split at h
  · exact absurd h (by simp)
  · exact pyFloat?_nonneg h

lemma MercadoLivre.mlExtractPrice_nonneg {s : Str} {v : ℚ}
    (h : MercadoLivre.extractPrice s = some v) : 0 ≤ v := by
  unfold MercadoLivre.extractPrice at h
  split at h
  · exact absurd h (by simp)
  · exact pyFloat?_nonneg h

lemma MagazineLuiza.magaluExtractPrice_nonneg {s : Str} {v : ℚ}
    (h : MagazineLuiza.extractPrice s = some v) : 0 ≤ v := by
  unfold MagazineLuiza.extractPrice at h
  split at h
  · exact absurd h (by simp)
  · exact pyFloat?_nonneg h

lemma Cascade.priceLoop_nonneg {ext : Str → Option ℚ} {c : Container}
    (hext : ∀ t w, ext t = some w → 0 ≤ w) :
    ∀ (sels : List String) (p0 : Option ℚ), (∀ w, p0 = some w → 0 ≤ w) →
      ∀ v, Cascade.priceLoop ext c sels p0 = some v → 0 ≤ v := by
  intro sels
  induction sels with
  | nil => intro p0 h0 v h; exact h0 v h
  | cons sel rest ih =>
    intro p0 h0 v h
    unfold Cascade.priceLoop at h
    cases hsel : c.selectOne sel with
    | none => rw [hsel] at h; exact ih p0 h0 v h
    | some el =>
      rw [hsel] at h
      simp only at h
      split at h
      · exact hext el.text v h
      · exact ih _ (fun w hw => hext el.text w hw) v h

lemma AmazonBR.amazonPrice_nonneg {c : Container} {v : ℚ} (h : AmazonBR.price c = some v) :
    0 ≤ v :=
  Cascade.priceLoop_nonneg (fun _ _ => AmazonBR.amazonExtractPrice_nonneg) _ none
    (by simp) v h

lemma MercadoLivre.mlPrice_nonneg {c : Container} {v : ℚ}
    (h : MercadoLivre.price c = some v) : 0 ≤ v :=
  Cascade.priceLoop_nonneg (fun _ _ => MercadoLivre.mlExtractPrice_nonneg) _ none
    (by simp) v h

/-- Structure of every record emitted by the Amazon per-container step. -/
lemma AmazonBR.amazonProcessContainer_fields {c : Container} {r : ProductInfo}
    (h : AmazonBR.processContainer c = some r) :
    ∃ t p, AmazonBR.title c = some t ∧ r.name = t ∧
      AmazonBR.price c = some p ∧ r.price = some p ∧ 0 < p ∧
      r.originalPrice = AmazonBR.originalPrice c ∧
      r.discountPercentage = discountOf (AmazonBR.originalPrice c) (some p) := by
  unfold AmazonBR.processContainer at h
  cases h1 : AmazonBR.title c with
  | none => rw [h1] at h; exact absurd h (by simp)
  | some t =>
    rw [h1] at h
    cases h2 : AmazonBR.rawUrl c with
    | none => rw [h2] at h; exact absurd h (by simp)
    | some u0 =>
      rw [h2] at h
      simp only at h
      cases h3 : AmazonBR.price c with
      | none => rw [h3] at h; exact absurd h (by simp)
      | some p =>
        rw [h3] at h
        simp only at h
        by_cases h4 : p = 0
        · rw [if_pos h4] at h; exact absurd h (by simp)
        · rw [if_neg h4] at h
          injection h with h
          subst h
          exact ⟨t, p, rfl, rfl, rfl, rfl,
            lt_of_le_of_ne (AmazonBR.amazonPrice_nonneg h3) (Ne.symm h4), rfl, rfl⟩

/-- Structure of every record emitted by the Mercado Livre per-container step. -/
lemma MercadoLivre.mlProcessContainer_fields {c : Container} {r : ProductInfo}
    (h : MercadoLivre.processContainer c = some r) :
    ∃ t p, MercadoLivre.title c = some t ∧ r.name = t ∧
      MercadoLivre.price c = some p ∧ r.price = some p ∧ 0 < p ∧
      r.originalPrice = MercadoLivre.originalPrice c ∧
      r.discountPercentage = discountOf (MercadoLivre.originalPrice c) (some p) := by
  unfold MercadoLivre.processContainer at h
  cases h1 : MercadoLivre.title c with
  | none => rw [h1] at h; exact absurd h (by simp)
  | some t =>
    rw [h1] at h
    cases h2 : MercadoLivre.rawUrl c with
    | none => rw [h2] at h; exact absurd h (by simp)
    | some u0 =>
      rw [h2] at h
      cases h3 : MercadoLivre.price c with
      | none => rw [h3] at h; exact absurd h (by simp)
      | some p =>
        rw [h3] at h
        simp only at h
        by_cases h4 : p = 0
        · rw [if_pos h4] at h; exact absurd h (by simp)
        · rw [if_neg h4] at h
          injection h with h
          subst h
          exact ⟨t, p, rfl, rfl, rfl, rfl,
            lt_of_le_of_ne (MercadoLivre.mlPrice_nonneg h3) (Ne.symm h4), rfl, rfl⟩

/-- C6. Discount computation: every record emitted by the Amazon or Mercado
Livre extractor carries `discountPercentage = (originalPrice - price) / originalPrice * 100`
exactly when `originalPrice` is present and strictly greater than the price,
and carries no discount otherwise; `originalPrice=200, price=150` gives `25`
and `originalPrice=100, price=150` gives none. -/
theorem discount_iff_original_strictly_greater :
    (∀ cs, ∀ r ∈ AmazonBR.extractProductInfo cs, ∀ p, r.price = some p →
      ((∀ op, r.originalPrice = some op → p < op →
          r.discountPercentage = some ((op - p) / op * 100)) ∧
       (∀ op, r.originalPrice = some op → ¬ p < op → r.discountPercentage = none) ∧
       (r.originalPrice = none → r.discountPercentage = none))) ∧
    (∀ cs, ∀ r ∈ MercadoLivre.extractProductInfo cs, ∀ p, r.price = some p →
      ((∀ op, r.originalPrice = some op → p < op →
          r.discountPercentage = some ((op - p) / op * 100)) ∧
       (∀ op, r.originalPrice = some op → ¬ p < op → r.discountPercentage = none) ∧
       (r.originalPrice = none → r.discountPercentage = none))) ∧
    discountOf (some 200) (some 150) = some 25 ∧
    discountOf (some 100) (some 150) = none := by
  have main : ∀ (r : ProductInfo) (p : ℚ), r.price = some p → 0 < p →
      r.discountPercentage = discountOf r.originalPrice (some p) →
      ((∀ op, r.originalPrice = some op → p < op →
          r.discountPercentage = some ((op - p) / op * 100)) ∧
       (∀ op, r.originalPrice = some op → ¬ p < op → r.discountPercentage = none) ∧
       (r.originalPrice = none → r.discountPercentage = none)) := by
    intro r p _ hpos hdisc
    refine ⟨?_, ?_, ?_⟩
    · intro op hop hlt
      have hp0 : p ≠ 0 := ne_of_gt hpos
      have hop0 : op ≠ 0 := ne_of_gt (hpos.trans hlt)
      rw [hdisc, hop]
      simp [discountOf, hp0, hop0, hlt]
    · intro op hop hlt
      rw [hdisc, hop]
      simp [discountOf, hlt]
    · intro hop
      rw [hdisc, hop]
      simp [discountOf]
  refine ⟨?_, ?_, by norm_num [discountOf], by norm_num [discountOf]⟩
  · intro cs r hr p hp
    obtain ⟨c, _, hproc⟩ := List.mem_filterMap.mp hr
    obtain ⟨t, p', ht, hname, hprc, hp', hpos, horig, hdisc⟩ :=
      AmazonBR.amazonProcessContainer_fields hproc
    rw [hp] at hp'
    obtain rfl : p = p' := Option.some_inj.mp hp'
    exact main r p hp hpos (by rw [hdisc, horig])
  · intro cs r hr p hp
    obtain ⟨c, _, hproc⟩ := List.mem_filterMap.mp hr
    obtain ⟨t, p', ht, hname, hprc, hp', hpos, horig, hdisc⟩ :=
      MercadoLivre.mlProcessContainer_fields hproc
    rw [hp] at hp'
    obtain rfl : p = p' := Option.some_inj.mp hp'
    exact main r p hp hpos (by rw [hdisc, horig])

/-- Witness for C6 at a concrete Amazon container. -/
theorem discount_iff_original_strictly_greater_witness :
    (∀ op, amzRecordC6.originalPrice = some op → (150 : ℚ) < op →
        amzRecordC6.discountPercentage = some ((op - 150) / op * 100)) ∧
    (∀ op, amzRecordC6.originalPrice = some op → ¬ (150 : ℚ) < op →
        amzRecordC6.discountPercentage = none) ∧
    (amzRecordC6.originalPrice = none → amzRecordC6.discountPercentage = none) :=
  discount_iff_original_strictly_greater.1 [amzContainerC6] amzRecordC6
    (by decide) 150 (by decide)

lemma Cascade.firstText_ne_nil {c : Container} {sels : List String} {t : Str}
    (h : Cascade.firstText c sels = some t) : t ≠ [] := by
  obtain ⟨sel, _, hsel⟩ := List.exists_of_findSome?_eq_some h
  cases hel : c.selectOne sel with
  | none => rw [hel] at hsel; exact absurd hsel (by simp)
  | some el =>
    rw [hel] at hsel
    simp only [Option.some_bind] at hsel
    split at hsel
    · exact absurd hsel (by simp)
    · obtain rfl : el.text = t := by simpa using hsel
      assumption

lemma AmazonBR.amazonTitle_ne_nil {c : Container} {t : Str}
    (h : AmazonBR.title c = some t) : t ≠ [] :=
  Cascade.firstText_ne_nil h

lemma MercadoLivre.mlTitle_ne_nil {c : Container} {t : Str}
    (h : MercadoLivre.title c = some t) : t ≠ [] := by
  unfold MercadoLivre.title at h
  cases hb : (c.selectOne "img[title]").bind
      (fun el => if truthyS el.attrTitle then el.attrTitle else none) with
  | some t0 =>
    rw [hb] at h
    simp only at h
    obtain rfl : t0 = t := Option.some_inj.mp h
    cases hel : c.selectOne "img[title]" with
    | none => rw [hel] at hb; exact absurd hb (by simp)
    | some el =>
      rw [hel] at hb
      simp only [Option.some_bind] at hb
      split at hb
      · rename_i htr
        rw [hb] at htr
        simpa [truthyS] using htr
      · exact absurd hb (by simp)
  | none =>
    rw [hb] at h
    simp only at h
    cases hel : c.selectOne ".ui-search-item__title" with
    | none => rw [hel] at h; exact absurd h (by simp)
    | some el =>
      rw [hel] at h
      simp only [Option.some_bind] at h
      split at h
      · exact absurd h (by simp)
      · obtain rfl : el.text = t := Option.some_inj.mp h
        assumption

lemma AmazonBR.amazonProcessContainer_eq_none_of_no_price {c : Container}
    (h : truthyQ (AmazonBR.price c) = false) :
    AmazonBR.processContainer c = none := by
  unfold AmazonBR.processContainer
  cases h1 : AmazonBR.title c with
  | none => rfl
  | some t =>
    cases h2 : AmazonBR.rawUrl c with
    | none => rfl
    | some u0 =>
      simp only
      cases h3 : AmazonBR.price c with
      | none => rfl
      | some p =>
        rw [h3] at h
        have hp : p = 0 := by simpa [truthyQ] using h
        simp [hp]

lemma MercadoLivre.mlProcessContainer_eq_none_of_no_price {c : Container}
    (h : truthyQ (MercadoLivre.price c) = false) :
    MercadoLivre.processContainer c = none := by
  unfold MercadoLivre.processContainer
  cases h1 : MercadoLivre.title c with
  | none => rfl
  | some t =>
    cases h2 : MercadoLivre.rawUrl c with
    | none => rfl
    | some u0 =>
      simp only
      cases h3 : MercadoLivre.price c with
      | none => rfl
      | some p =>
        rw [h3] at h
        have hp : p = 0 := by simpa [truthyQ] using h
        simp [hp]

/-- C7. Record-assembly precondition: an Amazon or Mercado Livre container
produces a record only if its name cascade yields a non-empty name and its
price cascade yields a truthy (non-zero) numeric price; a container whose
price cascade fails contributes zero records to the extraction pass, whatever
its name. -/
theorem record_requires_name_and_price :
    (∀ c r, AmazonBR.processContainer c = some r →
      (∃ t, AmazonBR.title c = some t ∧ t ≠ []) ∧
      (∃ p, AmazonBR.price c = some p ∧ p ≠ 0)) ∧
    (∀ c, truthyQ (AmazonBR.price c) = false → ∀ pre post,
      AmazonBR.extractProductInfo (pre ++ c :: post) =
        AmazonBR.extractProductInfo pre ++ AmazonBR.extractProductInfo post) ∧
    (∀ c r, MercadoLivre.processContainer c = some r →
      (∃ t, MercadoLivre.title c = some t ∧ t ≠ []) ∧
      (∃ p, MercadoLivre.price c = some p ∧ p ≠ 0)) ∧
    (∀ c, truthyQ (MercadoLivre.price c) = false → ∀ pre post,
      MercadoLivre.extractProductInfo (pre ++ c :: post) =
        MercadoLivre.extractProductInfo pre ++ MercadoLivre.extractProductInfo post) := by
  refine ⟨?_, ?_, ?_, ?_⟩
  · intro c r h
    obtain ⟨t, p, ht, _, hprc, _, hpos, _, _⟩ := AmazonBR.amazonProcessContainer_fields h
    exact ⟨⟨t, ht, AmazonBR.amazonTitle_ne_nil ht⟩, ⟨p, hprc, ne_of_gt hpos⟩⟩
  · intro c h pre post
    unfold AmazonBR.extractProductInfo
    rw [List.filterMap_append, List.filterMap_cons,
      AmazonBR.amazonProcessContainer_eq_none_of_no_price h]
  · intro c r h
    obtain ⟨t, p, ht, _, hprc, _, hpos, _, _⟩ := MercadoLivre.mlProcessContainer_fields h
    exact ⟨⟨t, ht, MercadoLivre.mlTitle_ne_nil ht⟩, ⟨p, hprc, ne_of_gt hpos⟩⟩
  · intro c h pre post
    unfold MercadoLivre.extractProductInfo
    rw [List.filterMap_append, List.filterMap_cons,
      MercadoLivre.mlProcessContainer_eq_none_of_no_price h]

/-- Witness for C7: the no-price container contributes nothing even next to a
valid container, and the valid container's record implies name and price. -/
theorem record_requires_name_and_price_witness :
    ((∃ t, AmazonBR.title amzContainerC6 = some t ∧ t ≠ []) ∧
     (∃ p, AmazonBR.price amzContainerC6 = some p ∧ p ≠ 0)) ∧
    AmazonBR.extractProductInfo ([amzContainerC6] ++ amzNoPriceContainer :: []) =
      AmazonBR.extractProductInfo [amzContainerC6] ++ AmazonBR.extractProductInfo [] :=
  ⟨record_requires_name_and_price.1 amzContainerC6 amzRecordC6 (by decide),
   record_requires_name_and_price.2.1 amzNoPriceContainer (by decide) [amzContainerC6] []⟩

/-! ## Decimal-numeral lemmas for the price normalizer -/

lemma digit_ne_comma {c : Char} (h : c.isDigit = true) : c ≠ ',' := by
  rintro rfl; exact absurd h (by decide)

lemma digit_ne_dot {c : Char} (h : c.isDigit = true) : c ≠ '.' := by
  rintro rfl; exact absurd h (by decide)

lemma natVal_foldl_acc (b : Str) :
    ∀ acc : ℕ, b.foldl (fun acc c => 10 * acc + (c.toNat - 48)) acc =
      acc * 10 ^ b.length + natVal b := by
  induction b with
  | nil => intro acc; simp [natVal]
  | cons c cs ih =>
    intro acc
    simp only [List.foldl_cons, List.length_cons, natVal] at *
    rw [ih (10 * acc + (c.toNat - 48)), ih (10 * 0 + (c.toNat - 48))]
    ring

lemma natVal_append (a b : Str) :
    natVal (a ++ b) = natVal a * 10 ^ b.length + natVal b := by
  unfold natVal
  rw [List.foldl_append, natVal_foldl_acc]
  rfl

lemma residue_eq_self {s : Str} (h : ∀ c ∈ s, c.isDigit ∨ c = '.' ∨ c = ',') :
    residue s = s := by
  unfold residue
  rw [List.filter_eq_self]
  intro c hc
  rcases h c hc with h | h | h <;> simp [keepPriceChar, h]

lemma hasChar_comma_false {s : Str} (h : ∀ c ∈ s, c.isDigit ∨ c = '.') :
    hasChar ',' s = false := by
  unfold hasChar
  rw [List.any_eq_false]
  intro c hc
  rcases h c hc with h | h
  · simpa [eq_comm] using digit_ne_comma h
  · subst h; decide

lemma splitDot_ne_nil (s : Str) : splitDot s ≠ [] := by
  induction s with
  | nil => simp [splitDot]
  | cons c cs ih =>
    unfold splitDot
    split
    · simp
    · cases h : splitDot cs with
      | nil => simp
      | cons g gs => simp

lemma splitDot_no_dot {s : Str} (h : '.' ∉ s) : splitDot s = [s] := by
  induction s with
  | nil => rfl
  | cons c cs ih =>
    have hc : c ≠ '.' := fun hcc => h (hcc ▸ List.mem_cons_self c cs)
    have hcs : '.' ∉ cs := fun hm => h (List.mem_cons_of_mem c hm)
    unfold splitDot
    rw [if_neg hc, ih hcs]

lemma splitDot_cons_ne {c : Char} (hc : c ≠ '.') (cs : Str) :
    splitDot (c :: cs) =
      match splitDot cs with
      | [] => [[c]]
      | g :: gs => (c :: g) :: gs := by
  cases cs <;> simp [splitDot, hc]

lemma splitDot_append_dot {a : Str} (ha : '.' ∉ a) (b : Str) :
    splitDot (a ++ '.' :: b) = a :: splitDot b := by
  induction a with
  | nil => simp [splitDot]
  | cons c a' ih =>
    have hc : c ≠ '.' := fun hcc => ha (hcc ▸ List.mem_cons_self c a')
    have ha' : '.' ∉ a' := fun hm => ha (List.mem_cons_of_mem c hm)
    simp only [List.cons_append]
    rw [splitDot_cons_ne hc, ih ha']

lemma not_dot_mem_of_digits {a : Str} (ha : ∀ c ∈ a, c.isDigit = true) : '.' ∉ a :=
  fun hm => absurd (ha '.' hm) (by decide)

lemma pyFloat?_digits {s : Str} (h : ∀ c ∈ s, c.isDigit = true) (hne : s ≠ []) :
    pyFloat? s = some (mkRat (natVal s) 1) := by
  unfold pyFloat?
  rw [if_pos (by rw [List.all_eq_true]; intro c hc; simp [h c hc])]
  rw [splitDot_no_dot (not_dot_mem_of_digits h)]
  simp [hne]

lemma pyFloat?_single_dot {a b : Str} (ha : ∀ c ∈ a, c.isDigit = true)
    (hb : ∀ c ∈ b, c.isDigit = true) :
    pyFloat? (a ++ '.' :: b) =
      if a = [] ∧ b = [] then none
      else some (mkRat (natVal a * 10 ^ b.length + natVal b) (10 ^ b.length)) := by
  unfold pyFloat?
  rw [if_pos ?hall]
  case hall =>
    rw [List.all_eq_true]
    intro c hc
    rcases List.mem_append.mp hc with hc | hc
    · simp [ha c hc]
    · rcases List.mem_cons.mp hc with rfl | hc
      · simp
      · simp [hb c hc]
  rw [splitDot_append_dot (not_dot_mem_of_digits ha),
      splitDot_no_dot (not_dot_mem_of_digits hb)]

lemma removeChar_dot_append {a b : Str} (ha : ∀ c ∈ a, c.isDigit = true)
    (hb : ∀ c ∈ b, c.isDigit = true) :
    removeChar '.' (a ++ '.' :: b) = a ++ b := by
  unfold removeChar
  rw [List.filter_append, List.filter_cons]
  have h1 : ∀ l : Str, (∀ c ∈ l, c.isDigit = true) →
      List.filter (fun x => !decide (x = '.')) l = l :=
    fun l hl => List.filter_eq_self.mpr fun c hc => by simpa using digit_ne_dot (hl c hc)
  simp [h1 a ha, h1 b hb]

lemma hasChar_dot_append (a b : Str) : hasChar '.' (a ++ '.' :: b) = true := by
  unfold hasChar
  rw [List.any_eq_true]
  exact ⟨'.', by simp, by simp⟩

lemma digits_dot_mem {a b : Str} (ha : ∀ c ∈ a, c.isDigit = true)
    (hb : ∀ c ∈ b, c.isDigit = true) :
    ∀ c ∈ a ++ '.' :: b, c.isDigit = true ∨ c = '.' := by
  intro c hc
  rcases List.mem_append.mp hc with hc | hc
  · exact Or.inl (ha c hc)
  · rcases List.mem_cons.mp hc with rfl | hc
    · exact Or.inr rfl
    · exact Or.inl (hb c hc)

lemma AmazonBR.amazonExtractPrice_single_dot {a b : Str}
    (ha : ∀ c ∈ a, c.isDigit = true) (hb : ∀ c ∈ b, c.isDigit = true) :
    AmazonBR.extractPrice (a ++ '.' :: b) =
      if 2 < b.length then some (mkRat (natVal (a ++ b)) 1)
      else if a = [] ∧ b = [] then none
      else some (mkRat (natVal a * 10 ^ b.length + natVal b) (10 ^ b.length)) := by
  unfold AmazonBR.extractPrice
  have hne : a ++ '.' :: b ≠ [] := by simp
  rw [if_neg hne]
  have hres : residue (a ++ '.' :: b) = a ++ '.' :: b :=
    residue_eq_self fun c hc => by
      rcases digits_dot_mem ha hb c hc with h | h
      · exact Or.inl h
      · exact Or.inr (Or.inl h)
  have hcomma : hasChar ',' (a ++ '.' :: b) = false :=
    hasChar_comma_false (digits_dot_mem ha hb)
  simp only [hres, hcomma, hasChar_dot_append, Bool.false_eq_true, false_and,
    if_false, if_true, Bool.true_eq_false]
  rw [splitDot_append_dot (not_dot_mem_of_digits ha),
      splitDot_no_dot (not_dot_mem_of_digits hb)]
  simp only []
  by_cases hlen : b.length > 2
  · rw [if_pos hlen, if_pos hlen, removeChar_dot_append ha hb,
      pyFloat?_digits
        (fun x hx => by
          rcases List.mem_append.mp hx with h | h
          · exact ha x h
          · exact hb x h)
        (fun hab => by
          rcases List.append_eq_nil.mp hab with ⟨-, rfl⟩
          simp at hlen)]
  · rw [if_neg hlen, if_neg hlen, pyFloat?_single_dot ha hb]

lemma AmazonBR.extractPrice_two_dots {a b c : Str}
    (ha : ∀ x ∈ a, x.isDigit = true) (hb : ∀ x ∈ b, x.isDigit = true)
    (hc : ∀ x ∈ c, x.isDigit = true) :
    AmazonBR.extractPrice (a ++ '.' :: b ++ '.' :: c) = none := by
  unfold AmazonBR.extractPrice
  have hne : a ++ '.' :: b ++ '.' :: c ≠ [] := by simp
  rw [if_neg hne]
  have hmem : ∀ x ∈ a ++ '.' :: b ++ '.' :: c, x.isDigit = true ∨ x = '.' := by
    intro x hx
    rcases List.mem_append.mp hx with hx | hx
    · rcases List.mem_append.mp hx with hx | hx
      · exact Or.inl (ha x hx)
      · rcases List.mem_cons.mp hx with rfl | hx
        · exact Or.inr rfl
        · exact Or.inl (hb x hx)
    · rcases List.mem_cons.mp hx with rfl | hx
      · exact Or.inr rfl
      · exact Or.inl (hc x hx)
  have hres : residue (a ++ '.' :: b ++ '.' :: c) = a ++ '.' :: b ++ '.' :: c :=
    residue_eq_self fun x hx => by
      rcases hmem x hx with h | h
      · exact Or.inl h
      · exact Or.inr (Or.inl h)
  have hcomma : hasChar ',' (a ++ '.' :: b ++ '.' :: c) = false :=
    hasChar_comma_false hmem
  have hdot : hasChar '.' (a ++ '.' :: b ++ '.' :: c) = true := by
    rw [show a ++ '.' :: b ++ '.' :: c = a ++ '.' :: (b ++ '.' :: c) by simp]
    exact hasChar_dot_append a (b ++ '.' :: c)
  have hsplit : splitDot (a ++ '.' :: b ++ '.' :: c) = a :: b :: [c] := by
    rw [show a ++ '.' :: b ++ '.' :: c = a ++ '.' :: (b ++ '.' :: c) by simp]
    rw [splitDot_append_dot (not_dot_mem_of_digits ha),
        splitDot_append_dot (not_dot_mem_of_digits hb),
        splitDot_no_dot (not_dot_mem_of_digits hc)]
  simp only [hres, hcomma, hdot, Bool.false_eq_true, false_and, if_false,
    if_true, Bool.true_eq_false, hsplit]
  unfold pyFloat?
  rw [hsplit]
  split <;> rfl

lemma MagazineLuiza.magaluExtractPrice_single_dot {a b : Str}
    (ha : ∀ c ∈ a, c.isDigit = true) (hb : ∀ c ∈ b, c.isDigit = true) :
    MagazineLuiza.extractPrice (a ++ '.' :: b) =
      if a = [] ∧ b = [] then none
      else some (mkRat (natVal a * 10 ^ b.length + natVal b) (10 ^ b.length)) := by
  unfold MagazineLuiza.extractPrice
  have hne : a ++ '.' :: b ≠ [] := by simp
  rw [if_neg hne]
  have hres : residue (a ++ '.' :: b) = a ++ '.' :: b :=
    residue_eq_self fun c hc => by
      rcases digits_dot_mem ha hb c hc with h | h
      · exact Or.inl h
      · exact Or.inr (Or.inl h)
  have hcomma : hasChar ',' (a ++ '.' :: b) = false :=
    hasChar_comma_false (digits_dot_mem ha hb)
  simp only [hres, hcomma, Bool.false_eq_true, false_and, if_false]
  exact pyFloat?_single_dot ha hb

/-- C2 counterexample: on `"1,234.56"` the later separator is the period, so
the claim demands `1234.56`, but the normalizer unconditionally removes the
periods and treats the comma as the decimal separator, producing `1.23456`. -/
theorem mixed_separator_counterexample :
    AmazonBR.extractPrice (strL "1,234.56") = some (mkRat 123456 100000) ∧
    MercadoLivre.extractPrice (strL "1,234.56") = some (mkRat 123456 100000) ∧
    (mkRat 123456 100000 : ℚ) ≠ mkRat 123456 100 :=
  ⟨by decide, by decide, by decide⟩

/-- C2 amended: with both separators present the normalizer always removes
every period and converts the comma to the decimal point; this agrees with
the claim's later-separator rule exactly on inputs whose last separator
occurrence is the comma (Brazilian format), e.g. `"1.234,56" → 1234.56`. -/
theorem mixed_separator_amended :
    (∀ s : Str, hasChar ',' (residue s) = true → hasChar '.' (residue s) = true →
      AmazonBR.extractPrice s = pyFloat? (commaToDot (removeChar '.' (residue s))) ∧
      (lastSepIsComma (residue s) = true →
        AmazonBR.extractPrice s = specMixedSeparatorRule (residue s))) ∧
    AmazonBR.extractPrice (strL "1.234,56") = some (mkRat 123456 100) ∧
    AmazonBR.extractPrice (strL "1,234.56") = some (mkRat 123456 100000) := by
  refine ⟨?_, by decide, by decide⟩
  intro s hc hd
  have hne : s ≠ [] := by
    rintro rfl
    simp [residue, hasChar] at hc
  have hmain : AmazonBR.extractPrice s = pyFloat? (commaToDot (removeChar '.' (residue s))) := by
    unfold AmazonBR.extractPrice
    rw [if_neg hne]
    simp only [hc, hd, and_self, if_true]
  refine ⟨hmain, fun hcl => ?_⟩
  rw [hmain]
  unfold specMixedSeparatorRule
  rw [hcl]
  simp only [if_true]
  rfl

/-- C3 counterexample: `"1.234.567"` has more than two characters after its
last period, so the claim demands the periods be removed (value `1234567`),
but the heuristic fires only when the split yields exactly two parts, and
`float("1.234.567")` raises, yielding `None`; and the Magazine Luiza
normalizer has no period-only heuristic at all, so `"1.234"` parses as
`1.234` instead of the claimed `1234.0`. -/
theorem period_only_heuristic_counterexample :
    AmazonBR.extractPrice (strL "1.234.567") = none ∧
    MagazineLuiza.extractPrice (strL "1.234") = some (mkRat 1234 1000) ∧
    (mkRat 1234 1000 : ℚ) ≠ 1234 :=
  ⟨by decide, by decide, by decide⟩

/-- C3 amended: in the Amazon/Mercado Livre normalizer the digit-count
heuristic applies only to residues with exactly one period: with a single
period, more than two trailing characters make the period a removed thousands
separator and otherwise it is the decimal point; with two or more periods the
string is left unchanged and fails to parse; the Magazine Luiza normalizer
never applies the heuristic and keeps the period as the decimal point. -/
theorem period_only_heuristic_amended :
    (∀ a b : Str, (∀ c ∈ a, c.isDigit = true) → (∀ c ∈ b, c.isDigit = true) →
      AmazonBR.extractPrice (a ++ '.' :: b) =
        if 2 < b.length then some (mkRat (natVal (a ++ b)) 1)
        else if a = [] ∧ b = [] then none
        else some (mkRat (natVal a * 10 ^ b.length + natVal b) (10 ^ b.length))) ∧
    (∀ a b c : Str, (∀ x ∈ a, x.isDigit = true) → (∀ x ∈ b, x.isDigit = true) →
      (∀ x ∈ c, x.isDigit = true) →
      AmazonBR.extractPrice (a ++ '.' :: b ++ '.' :: c) = none) ∧
    (∀ a b : Str, (∀ c ∈ a, c.isDigit = true) → (∀ c ∈ b, c.isDigit = true) →
      MagazineLuiza.extractPrice (a ++ '.' :: b) =
        if a = [] ∧ b = [] then none
        else some (mkRat (natVal a * 10 ^ b.length + natVal b) (10 ^ b.length))) ∧
    AmazonBR.extractPrice (strL "1.234") = some 1234 ∧
    AmazonBR.extractPrice (strL "12.34") = some (mkRat 1234 100) :=
  ⟨fun _ _ ha hb => AmazonBR.amazonExtractPrice_single_dot ha hb,
   fun _ _ _ ha hb hc => AmazonBR.extractPrice_two_dots ha hb hc,
   fun _ _ ha hb => MagazineLuiza.magaluExtractPrice_single_dot ha hb,
   by decide, by decide⟩

/-- Witness for C3 amended at `a = "1"`, `b = "234"`. -/
theorem period_only_heuristic_amended_witness :
    AmazonBR.extractPrice (strL "1" ++ '.' :: strL "234") =
      (if 2 < (strL "234").length then some (mkRat (natVal (strL "1" ++ strL "234")) 1)
       else if strL "1" = [] ∧ strL "234" = [] then none
       else some (mkRat (natVal (strL "1") * 10 ^ (strL "234").length +
         natVal (strL "234")) (10 ^ (strL "234").length))) :=
  period_only_heuristic_amended.1 (strL "1") (strL "234") (by decide) (by decide)

/-- Witness for C2 amended at the Brazilian-format input `"1.234,56"`. -/
theorem mixed_separator_amended_witness :
    AmazonBR.extractPrice (strL "1.234,56") =
      pyFloat? (commaToDot (removeChar '.' (residue (strL "1.234,56")))) ∧
    (lastSepIsComma (residue (strL "1.234,56")) = true →
      AmazonBR.extractPrice (strL "1.234,56") =
        specMixedSeparatorRule (residue (strL "1.234,56"))) :=
  mixed_separator_amended.1 (strL "1.234,56") (by decide) (by decide)

lemma natVal_digitChar : ∀ k, k < 10 → natVal [digitChar k] = k := by decide

lemma isDigit_digitChar : ∀ k, k < 10 → (digitChar k).isDigit = true := by decide

lemma natVal_renderNat (n : ℕ) : natVal (renderNat n) = n := by
  induction n using Nat.strong_induction_on with
  | _ n ih =>
    by_cases h : n < 10
    · rw [renderNat, if_pos h]
      exact natVal_digitChar n h
    · rw [renderNat, if_neg h, natVal_append,
        ih (n / 10) (Nat.div_lt_self (by omega) (by omega)),
        natVal_digitChar (n % 10) (Nat.mod_lt _ (by omega))]
      simp only [List.length_cons, List.length_nil, pow_one, zero_add]
      omega

lemma renderNat_digits (n : ℕ) : ∀ c ∈ renderNat n, c.isDigit = true := by
  induction n using Nat.strong_induction_on with
  | _ n ih =>
    by_cases h : n < 10
    · rw [renderNat, if_pos h]
      intro c hc
      rcases List.mem_singleton.mp hc with rfl
      exact isDigit_digitChar n h
    · rw [renderNat, if_neg h]
      intro c hc
      rcases List.mem_append.mp hc with hc | hc
      · exact ih (n / 10) (Nat.div_lt_self (by omega) (by omega)) c hc
      · rcases List.mem_singleton.mp hc with rfl
        exact isDigit_digitChar (n % 10) (Nat.mod_lt _ (by omega))

lemma renderNat_ne_nil (n : ℕ) : renderNat n ≠ [] := by
  rw [renderNat]
  split <;> simp

lemma renderNat_length_lt_ten {n : ℕ} (h : n < 10) : (renderNat n).length = 1 := by
  rw [renderNat, if_pos h]
  rfl

lemma padTwo_length {k : ℕ} (h : k < 100) : (padTwo k).length = 2 := by
  unfold padTwo
  by_cases h1 : k < 10
  · rw [if_pos h1]; rfl
  · rw [if_neg h1, renderNat, if_neg h1, List.length_append,
      renderNat_length_lt_ten (by omega)]
    rfl

lemma natVal_padTwo (k : ℕ) : natVal (padTwo k) = k := by
  unfold padTwo
  by_cases h1 : k < 10
  · rw [if_pos h1]
    have h2 : natVal ('0' :: [digitChar k]) = natVal (['0'] ++ [digitChar k]) := rfl
    have h0 : natVal ['0'] = 0 := by decide
    rw [h2, natVal_append, natVal_digitChar k h1, h0]
    simp
  · rw [if_neg h1]
    exact natVal_renderNat k

lemma padTwo_digits (k : ℕ) : ∀ c ∈ padTwo k, c.isDigit = true := by
  unfold padTwo
  by_cases h1 : k < 10
  · rw [if_pos h1]
    intro c hc
    rcases List.mem_cons.mp hc with rfl | hc
    · decide
    · rcases List.mem_singleton.mp hc with rfl
      exact isDigit_digitChar k h1
  · rw [if_neg h1]
    exact renderNat_digits k

/-- C9 counterexample: `1.23456` is in the normalizer's range (it is the
output for `"1,234.56"`), yet normalizing its string form `"1.23456"`
triggers the thousands heuristic and yields `123456`, not the value itself. -/
theorem normalize_roundtrip_counterexample :
    AmazonBR.extractPrice (strL "1,234.56") = some (mkRat 123456 100000) ∧
    AmazonBR.extractPrice (strL "1.23456") = some 123456 ∧
    (123456 : ℚ) ≠ mkRat 123456 100000 :=
  ⟨by decide, by decide, by decide⟩

/-- C9 amended: the normalizer is a pure function of its input, and
re-normalizing the clean two-decimal string form of any value `m/100`
returns that value; in particular `"1234.56"` re-normalizes to `1234.56`.
Values with more than two decimal places do not round-trip. -/
theorem normalize_roundtrip_amended :
    (∀ m : ℕ, AmazonBR.extractPrice (renderCents m) = some (mkRat m 100)) ∧
    AmazonBR.extractPrice (strL "1234.56") = some (mkRat 123456 100) := by
  refine ⟨?_, by decide⟩
  intro m
  unfold renderCents
  rw [AmazonBR.amazonExtractPrice_single_dot (renderNat_digits _) (padTwo_digits _),
    padTwo_length (Nat.mod_lt _ (by norm_num)),
    if_neg (by norm_num),
    if_neg (by simp [renderNat_ne_nil]),
    natVal_renderNat, natVal_padTwo]
  have h1 : ((m / 100 : ℕ) * 10 ^ 2 + (m % 100 : ℕ) : ℤ) = (m : ℤ) := by
    push_cast
    omega
  rw [h1]
  norm_num

/-- C4 counterexample: the Amazon extractor performs no URL deduplication —
two identical containers yield two records with the same canonical URL — and
even the deduplicating Magazine Luiza extractor emits two records with the
same (base) URL when two valid containers carry no link. -/
theorem url_dedup_counterexample :
    AmazonBR.extractProductInfo [amzContainerC6, amzContainerC6] =
      [amzRecordC6, amzRecordC6] ∧
    amzRecordC6.url = strL "https://www.amazon.com.br/dp/X1" ∧
    MagazineLuiza.extractProductInfo (strL "https://busca") [mglNoLinkA, mglNoLinkB] =
      [mglRecNoLinkA, mglRecNoLinkB] ∧
    mglRecNoLinkA.url = mglRecNoLinkB.url :=
  ⟨by decide, by decide, by decide, by decide⟩

/-- When a Magazine Luiza container resolves a (canonically non-empty) URL
and its processing emits a record, the record carries that URL, the URL was
not previously seen, and it is added to the seen set. -/
lemma MagazineLuiza.processContainer_resolved {baseUrl : Str} {seen : List Str}
    {c : Container} {r : ProductInfo} {seen' : List Str} {u : Str}
    (hres : MagazineLuiza.resolveUrl c = some (some u))
    (hne : MagazineLuiza.canonUrl u ≠ [])
    (hp : MagazineLuiza.processContainer baseUrl seen c = some (r, seen')) :
    r.url = MagazineLuiza.canonUrl u ∧ MagazineLuiza.canonUrl u ∉ seen ∧
      seen' = seen ++ [MagazineLuiza.canonUrl u] := by
  unfold MagazineLuiza.processContainer at hp
  cases h1 : MagazineLuiza.name c with
  | none => rw [h1] at hp; exact absurd hp (by simp)
  | some n =>
    rw [h1] at hp
    simp only at hp
    split at hp
    · exact absurd hp (by simp)
    · split at hp
      · exact absurd hp (by simp)
      · rw [hres] at hp
        simp only [Option.map_some'] at hp
        by_cases hmem : MagazineLuiza.canonUrl u ∈ seen
        · rw [if_pos (by simp [hne, hmem])] at hp
          exact absurd hp (by simp)
        · rw [if_neg (by simp [hmem])] at hp
          simp only [Option.map_some', hne, ne_eq, not_false_iff, if_true] at hp
          injection hp with hp
          injection hp with h2 h3
          exact ⟨by rw [← h2], hmem, h3.symm⟩

/-- Deduplication invariant of the Magazine Luiza container loop: when every
container resolves a canonically non-empty URL, the emitted URLs are pairwise
distinct and avoid the initial seen set. -/
lemma MagazineLuiza.extractLoop_nodup (baseUrl : Str) :
    ∀ (cs : List Container) (seen : List Str),
      (∀ c ∈ cs, ∃ u, MagazineLuiza.resolveUrl c = some (some u) ∧
        MagazineLuiza.canonUrl u ≠ []) →
      (((MagazineLuiza.extractLoop baseUrl seen cs).map (·.url)).Pairwise (· ≠ ·) ∧
       ∀ r ∈ MagazineLuiza.extractLoop baseUrl seen cs, r.url ∉ seen) := by
  intro cs
  induction cs with
  | nil => intro seen _; simp [MagazineLuiza.extractLoop]
  | cons c cs' ih =>
    intro seen h
    obtain ⟨u, hres, hne⟩ := h c (List.mem_cons_self c cs')
    have h' : ∀ x ∈ cs', ∃ u, MagazineLuiza.resolveUrl x = some (some u) ∧
        MagazineLuiza.canonUrl u ≠ [] :=
      fun x hx => h x (List.mem_cons_of_mem c hx)
    unfold MagazineLuiza.extractLoop
    cases hp : MagazineLuiza.processContainer baseUrl seen c with
    | none => exact ih seen h'
    | some rs =>
      obtain ⟨r, seen'⟩ := rs
      obtain ⟨hurl, hnotmem, hseen'⟩ := MagazineLuiza.processContainer_resolved hres hne hp
      obtain ⟨ihp, ihm⟩ := ih seen' h'
      constructor
      · simp only [List.map_cons]
        refine List.pairwise_cons.mpr ⟨?_, ihp⟩
        intro x hx
        obtain ⟨r', hr', rfl⟩ := List.mem_map.mp hx
        have hmem' := ihm r' hr'
        rw [hseen'] at hmem'
        simp only [List.mem_append, List.mem_singleton, not_or] at hmem'
        rw [hurl]
        exact fun heq => hmem'.2 heq.symm
      · intro r0 hr0
        rcases List.mem_cons.mp hr0 with rfl | hr0
        · rw [hurl]; exact hnotmem
        · have hmem' := ihm r0 hr0
          rw [hseen'] at hmem'
          simp only [List.mem_append, List.mem_singleton, not_or] at hmem'
          exact hmem'.1

/-- C4 amended: only some extractors deduplicate. For Magazine Luiza, when
every container resolves a product URL, emitted canonical URLs are pairwise
distinct, and a duplicated URL yields exactly one record, from the first such
container; containers without links fall back to the search URL without
deduplication, and the Amazon extractor deduplicates nothing. -/
theorem url_dedup_amended :
    (∀ (baseUrl : Str) (cs : List Container),
      (∀ c ∈ cs, ∃ u, MagazineLuiza.resolveUrl c = some (some u) ∧
        MagazineLuiza.canonUrl u ≠ []) →
      ((MagazineLuiza.extractProductInfo baseUrl cs).map (·.url)).Pairwise (· ≠ ·)) ∧
    MagazineLuiza.extractProductInfo (strL "https://busca") [mglDupA, mglDupB] =
      [mglDupRecA] ∧
    mglDupRecA.name = strL "Produto Um Teste" := by
  refine ⟨?_, by decide, by decide⟩
  intro baseUrl cs h
  exact (MagazineLuiza.extractLoop_nodup baseUrl cs [] h).1

/-- Witness for C4 amended at the duplicated-URL container pair. -/
theorem url_dedup_amended_witness :
    ((MagazineLuiza.extractProductInfo (strL "https://busca")
        [mglDupA, mglDupB]).map (·.url)).Pairwise (· ≠ ·) :=
  url_dedup_amended.1 (strL "https://busca") [mglDupA, mglDupB]
    (by
      intro c hc
      rcases List.mem_cons.mp hc with rfl | hc
      · exact ⟨strL "/p/123", by decide, by decide⟩
      · rcases List.mem_cons.mp hc with rfl | hc
        · exact ⟨strL "/p/123", by decide, by decide⟩
        · exact absurd hc (by simp))

namespace Orchestrator

lemma decideScrapers_mem (st : OrchState) :
    decideScrapers st ∈
      ["end", "multiple", "amazon", "mercadolivre", "magazine_luiza", "americanas",
       "casas_bahia", "pontofrio", "carrefour", "samsung"] := by
  unfold decideScrapers
  dsimp only
  split_ifs <;> simp

set_option maxHeartbeats 1000000 in
lemma decideScrapers_flag {st : OrchState} {l : String}
    (h : decideScrapers st = l) (h1 : l ≠ "end") (h2 : l ≠ "multiple") :
    labelFlag l st.targetSites = true := by
  unfold decideScrapers at h
  dsimp only at h
  split_ifs at h
  all_goals subst h
  all_goals first
    | exact absurd rfl h1
    | exact absurd rfl h2
    | (simp only [labelFlag]; assumption)

lemma checkRemaining_mem (st : OrchState) :
    checkRemaining st ∈
      ["mercadolivre", "carrefour", "magazine_luiza", "americanas",
       "casas_bahia", "pontofrio", "samsung", "done"] := by
  unfold checkRemaining
  dsimp only
  split_ifs <;> simp

lemma checkRemaining_flag {st : OrchState} {l : String}
    (h : checkRemaining st = l) (h1 : l ≠ "done") :
    labelFlag l st.targetSites = true := by
  unfold checkRemaining at h
  dsimp only at h
  split_ifs at h
  all_goals subst h
  all_goals first
    | exact absurd rfl h1
    | simp_all [labelFlag, Bool.and_eq_true]

lemma siteAgent_targetSites (oracle : Oracle) (key : String) (st : OrchState) :
    (siteAgent oracle key st).targetSites = st.targetSites := by
  unfold siteAgent
  cases oracle key <;> rfl

lemma siteKey?_chainIdx_lt {n : Node} {key : String} (h : siteKey? n = some key) :
    chainIdx n < 10 := by
  cases n <;> simp_all [siteKey?, chainIdx]

lemma siteKey?_ne_done {n : Node} {key : String} (h : siteKey? n = some key) :
    key ≠ "done" := by
  cases n <;> simp_all [siteKey?] <;> rintro rfl <;> simp_all

lemma pathMap_sound {n : Node} {l : String} {n' : Node} (h : pathMap n l = some n') :
    (n' = .resultsAggregator ∧ l = "done") ∨
      (chainIdx n < chainIdx n' ∧ siteKey? n' = some l) := by
  cases n <;> simp only [pathMap] at h
  all_goals try exact Option.noConfusion h
  all_goals split_ifs at h
  all_goals first
    | exact Option.noConfusion h
    | (obtain rfl := Option.some_inj.mp h; simp_all [chainIdx, siteKey?])

end Orchestrator

namespace Orchestrator

lemma graphRun_aggregator_trace (oracle : Oracle) (fuel : ℕ) (st : OrchState) :
    (graphRun oracle fuel .resultsAggregator st).2 = [] := by
  cases fuel <;> rfl

/-- Trace invariant of the graph loop: visited site nodes move strictly
forward along the hardcoded chain, and every node visited after the start
node carries a requested-site flag of the (unchanging) validated worklist. -/
lemma graphRun_trace_invariant (oracle : Oracle) :
    ∀ (fuel : ℕ) (node : Node) (st : OrchState),
      List.Chain' (fun a b => chainIdx a < chainIdx b) (graphRun oracle fuel node st).2 ∧
      ∀ n ∈ (graphRun oracle fuel node st).2,
        n = node ∨ (chainIdx node < chainIdx n ∧ nodeFlag n st.targetSites = true) := by
  intro fuel
  induction fuel with
  | zero => intro node st; simp [graphRun]
  | succ fuel ih =>
    intro node st
    by_cases hagg : node = .resultsAggregator
    · subst hagg; simp [graphRun]
    · cases hkey : siteKey? node with
      | none => simp [graphRun, hagg, hkey]
      | some key =>
        have hts : (siteAgent oracle key st).targetSites = st.targetSites :=
          siteAgent_targetSites oracle key st
        cases hpm : pathMap node (checkRemaining (siteAgent oracle key st)) with
        | none =>
          simp only [graphRun, if_neg hagg, hkey, hpm]
          constructor
          · simp
          · intro n hn
            rcases List.mem_singleton.mp hn with rfl
            exact Or.inl rfl
        | some next =>
          obtain ⟨ihc, ihm⟩ := ih next (siteAgent oracle key st)
          simp only [graphRun, if_neg hagg, hkey, hpm]
          have hlt : chainIdx node < chainIdx next := by
            rcases pathMap_sound hpm with ⟨rfl, -⟩ | ⟨hlt, -⟩
            · calc chainIdx node < 10 := siteKey?_chainIdx_lt hkey
                _ = chainIdx .resultsAggregator := rfl
            · exact hlt
          constructor
          · rw [List.chain'_cons']
            refine ⟨?_, ihc⟩
            intro b hb
            have hbmem : b ∈ (graphRun oracle fuel next (siteAgent oracle key st)).2 :=
              List.mem_of_mem_head? hb
            rcases ihm b hbmem with rfl | ⟨hlt2, -⟩
            · exact hlt
            · exact hlt.trans hlt2
          · intro n hn
            rcases List.mem_cons.mp hn with rfl | hn
            · exact Or.inl rfl
            · rcases ihm n hn with rfl | ⟨hlt2, hflag⟩
              · rcases pathMap_sound hpm with ⟨rfl, -⟩ | ⟨-, hkey'⟩
                · rw [graphRun_aggregator_trace] at hn
                  exact absurd hn (by simp)
                · refine Or.inr ⟨hlt, ?_⟩
                  rw [← hts]
                  unfold nodeFlag
                  rw [hkey']
                  exact checkRemaining_flag rfl (siteKey?_ne_done hkey')
              · exact Or.inr ⟨hlt.trans hlt2, hts ▸ hflag⟩

lemma entry_node_cases {st1 : OrchState} {entry : Node}
    (hce : coordinatorEdges (decideScrapers st1) = some entry) :
    entry = .amazonScraper ∨ entry = .resultsAggregator ∨
      nodeFlag entry st1.targetSites = true := by
  have hmem := decideScrapers_mem st1
  simp only [List.mem_cons, List.mem_singleton, List.not_mem_nil, or_false] at hmem
  rcases hmem with h|h|h|h|h|h|h|h|h|h
  · rw [h, show coordinatorEdges "end" = some Node.resultsAggregator from rfl] at hce
    obtain rfl := Option.some_inj.mp hce
    exact Or.inr (Or.inl rfl)
  · rw [h, show coordinatorEdges "multiple" = some Node.amazonScraper from rfl] at hce
    obtain rfl := Option.some_inj.mp hce
    exact Or.inl rfl
  · rw [h, show coordinatorEdges "amazon" = some Node.amazonScraper from rfl] at hce
    obtain rfl := Option.some_inj.mp hce
    exact Or.inl rfl
  · rw [h, show coordinatorEdges "mercadolivre" = some Node.mercadolivreScraper from rfl] at hce
    obtain rfl := Option.some_inj.mp hce
    exact Or.inr (Or.inr (decideScrapers_flag h (by decide) (by decide)))
  · rw [h, show coordinatorEdges "magazine_luiza" = some Node.magazineLuizaScraper from rfl] at hce
    obtain rfl := Option.some_inj.mp hce
    exact Or.inr (Or.inr (decideScrapers_flag h (by decide) (by decide)))
  · rw [h, show coordinatorEdges "americanas" = some Node.americanasScraper from rfl] at hce
    obtain rfl := Option.some_inj.mp hce
    exact Or.inr (Or.inr (decideScrapers_flag h (by decide) (by decide)))
  · rw [h, show coordinatorEdges "casas_bahia" = some Node.casasBahiaScraper from rfl] at hce
    obtain rfl := Option.some_inj.mp hce
    exact Or.inr (Or.inr (decideScrapers_flag h (by decide) (by decide)))
  · rw [h, show coordinatorEdges "pontofrio" = some Node.pontofrioScraper from rfl] at hce
    obtain rfl := Option.some_inj.mp hce
    exact Or.inr (Or.inr (decideScrapers_flag h (by decide) (by decide)))
  · rw [h, show coordinatorEdges "carrefour" = some Node.carrefourScraper from rfl] at hce
    obtain rfl := Option.some_inj.mp hce
    exact Or.inr (Or.inr (decideScrapers_flag h (by decide) (by decide)))
  · rw [h, show coordinatorEdges "samsung" = some Node.samsungScraper from rfl] at hce
    obtain rfl := Option.some_inj.mp hce
    exact Or.inr (Or.inr (decideScrapers_flag h (by decide) (by decide)))

/-- The full-run trace invariant: every visited site node is either the
Amazon entry node or a site flagged in the validated worklist, and nodes are
visited in strictly increasing chain order. -/
lemma executeScraping_trace_invariant (oracle : Oracle) (targets : List String) :
    List.Chain' (fun a b => chainIdx a < chainIdx b) (executeScraping oracle targets).2 ∧
    ∀ n ∈ (executeScraping oracle targets).2,
      n = .amazonScraper ∨
        nodeFlag n (coordinatorAgent { targetSites := targets }).targetSites = true := by
  unfold executeScraping
  dsimp only
  cases hce : coordinatorEdges (decideScrapers (coordinatorAgent { targetSites := targets })) with
  | none => simp
  | some entry =>
    simp only
    have htr :
        (match graphRun oracle 12 entry (coordinatorAgent { targetSites := targets }) with
          | (RunStatus.finished st, tr) =>
              ((⟨st.products, st.errors, st.products.length⟩ : ScrapingResultM), tr)
          | (_, tr) => ((⟨[], [ErrMsg.orchestration], 0⟩ : ScrapingResultM), tr)).2 =
        (graphRun oracle 12 entry (coordinatorAgent { targetSites := targets })).2 := by
      rcases graphRun oracle 12 entry (coordinatorAgent { targetSites := targets }) with ⟨r, tr⟩
      cases r <;> rfl
    rw [htr]
    obtain ⟨hchain, hmem⟩ :=
      graphRun_trace_invariant oracle 12 entry (coordinatorAgent { targetSites := targets })
    refine ⟨hchain, ?_⟩
    intro n hn
    rcases hmem n hn with rfl | ⟨-, hflag⟩
    · rcases entry_node_cases hce with h | h | h
      · exact Or.inl h
      · rw [h, graphRun_aggregator_trace] at hn
        exact absurd hn (by simp)
      · exact Or.inr h
    · exact Or.inr hflag

end Orchestrator

namespace Orchestrator

lemma graphRun_head_site {oracle : Oracle} {fuel : ℕ} {node : Node} {st : OrchState}
    {key : String} (hkey : siteKey? node = some key)
    (hagg : node ≠ .resultsAggregator) :
    (graphRun oracle (fuel + 1) node st).2.head? = some node := by
  simp only [graphRun, if_neg hagg, hkey]
  cases pathMap node (checkRemaining (siteAgent oracle key st)) <;> simp

lemma executeScraping_multiple_head {oracle : Oracle} {targets : List String}
    (h : decideScrapers (coordinatorAgent { targetSites := targets }) = "multiple") :
    (executeScraping oracle targets).2.head? = some .amazonScraper := by
  unfold executeScraping
  dsimp only
  rw [h, show coordinatorEdges "multiple" = some Node.amazonScraper from rfl]
  dsimp only
  have hh : (graphRun oracle 12 Node.amazonScraper
      (coordinatorAgent { targetSites := targets })).2.head? = some Node.amazonScraper :=
    @graphRun_head_site oracle 11 Node.amazonScraper
      (coordinatorAgent { targetSites := targets }) "amazon" rfl (by decide)
  rcases hgr : graphRun oracle 12 Node.amazonScraper
      (coordinatorAgent { targetSites := targets }) with ⟨r, tr⟩
  rw [hgr] at hh
  cases r <;> simpa using hh

lemma coordinatorValidate_subset :
    ∀ ts : List String, ∀ s ∈ (coordinatorValidate ts).1, s ∈ supportedSites := by
  intro ts
  induction ts with
  | nil => simp [coordinatorValidate]
  | cons site rest ih =>
    intro s hs
    unfold coordinatorValidate at hs
    dsimp only at hs
    split at hs
    · rcases List.mem_cons.mp hs with rfl | hs
      · rename_i hsup
        simpa using hsup
      · exact ih s hs
    · exact ih s hs

end Orchestrator

lemma Orchestrator.coordinatorValidate_lg_err :
    ∀ ts : List String, "lg" ∈ ts →
      Orchestrator.ErrMsg.unsupportedSite "lg" ∈ (Orchestrator.coordinatorValidate ts).2 := by
  intro ts
  induction ts with
  | nil => simp
  | cons site rest ih =>
    intro hmem
    unfold Orchestrator.coordinatorValidate
    rcases hcv : Orchestrator.coordinatorValidate rest with ⟨av, errs⟩
    dsimp only
    rcases List.mem_cons.mp hmem with rfl | hmem
    · rw [if_neg (by decide)]
      exact List.mem_cons_self _ _
    · have hih := ih hmem
      rw [hcv] at hih
      split
      · exact hih
      · exact List.mem_cons_of_mem _ hih

/-- C1: evaluation of the model at the failing input. Site B = Mercado Livre
raises while A = Amazon already contributed a product and C = Carrefour would
succeed; the routing function then returns "mercadolivre" from the Mercado
Livre node, a label absent from that node's path map, so the graph invocation
raises and `execute_scraping` returns an empty result with a single
orchestration error: Amazon's product is lost, Carrefour is never visited,
and no error entry names Mercado Livre. -/
theorem failing_site_stage_aborts_run :
    Orchestrator.executeScraping oracleC1 ["amazon", "mercadolivre", "carrefour"] =
      (⟨[], [Orchestrator.ErrMsg.orchestration], 0⟩,
        [Orchestrator.Node.amazonScraper, Orchestrator.Node.mercadolivreScraper]) ∧
    oracleC1 "amazon" = Orchestrator.SiteOutcome.ok [prodAmz] ∧
    oracleC1 "carrefour" = Orchestrator.SiteOutcome.ok [prodCrf] ∧
    prodAmz ∉
      (Orchestrator.executeScraping oracleC1 ["amazon", "mercadolivre", "carrefour"]).1.products ∧
    Orchestrator.ErrMsg.siteError "mercadolivre" ∉
      (Orchestrator.executeScraping oracleC1 ["amazon", "mercadolivre", "carrefour"]).1.errors :=
  ⟨by decide, by decide, by decide, by decide, by decide⟩

/-- C8 counterexample: a request naming only Mercado Livre and Carrefour
still enters the graph at the Amazon stage (the "multiple" branch), so
Amazon is scraped although it was never requested, and its product reaches
the final result. -/
theorem worklist_only_counterexample :
    "amazon" ∉ (["mercadolivre", "carrefour"] : List String) ∧
    (Orchestrator.executeScraping oracleC8 ["mercadolivre", "carrefour"]).2 =
      [Orchestrator.Node.amazonScraper, Orchestrator.Node.mercadolivreScraper,
        Orchestrator.Node.carrefourScraper] ∧
    prodAmz ∈ (Orchestrator.executeScraping oracleC8 ["mercadolivre", "carrefour"]).1.products :=
  ⟨by decide, by decide, by decide⟩

/-- C8 amended: except for the Amazon entry stage — which is always entered
first when more than one supported site is flagged, even if Amazon was not
requested — every visited site stage carries a requested-site flag of the
validated worklist, and stages are visited in strictly increasing hardcoded
chain order (amazon, mercadolivre, carrefour, magazine_luiza, americanas,
casas_bahia, pontofrio, samsung), hence each at most once and independently
of the order the sites were requested in. -/
theorem worklist_fixed_order_amended :
    (∀ (oracle : Orchestrator.Oracle) (targets : List String),
      List.Chain' (fun a b => Orchestrator.chainIdx a < Orchestrator.chainIdx b)
        (Orchestrator.executeScraping oracle targets).2 ∧
      ∀ n ∈ (Orchestrator.executeScraping oracle targets).2,
        n = Orchestrator.Node.amazonScraper ∨
          Orchestrator.nodeFlag n
            (Orchestrator.coordinatorAgent { targetSites := targets }).targetSites = true) ∧
    (∀ (oracle : Orchestrator.Oracle) (targets : List String),
      Orchestrator.decideScrapers
          (Orchestrator.coordinatorAgent { targetSites := targets }) = "multiple" →
      (Orchestrator.executeScraping oracle targets).2.head? =
        some Orchestrator.Node.amazonScraper) :=
  ⟨fun oracle targets => Orchestrator.executeScraping_trace_invariant oracle targets,
   fun _ _ h => Orchestrator.executeScraping_multiple_head h⟩

/-- Witness for C8 amended at the request `["mercadolivre", "carrefour"]`. -/
theorem worklist_fixed_order_amended_witness :
    (Orchestrator.Node.mercadolivreScraper = Orchestrator.Node.amazonScraper ∨
      Orchestrator.nodeFlag Orchestrator.Node.mercadolivreScraper
        (Orchestrator.coordinatorAgent
          { targetSites := ["mercadolivre", "carrefour"] }).targetSites = true) ∧
    (Orchestrator.executeScraping oracleC8 ["mercadolivre", "carrefour"]).2.head? =
      some Orchestrator.Node.amazonScraper :=
  ⟨(worklist_fixed_order_amended.1 oracleC8 ["mercadolivre", "carrefour"]).2
      Orchestrator.Node.mercadolivreScraper (by decide),
   worklist_fixed_order_amended.2 oracleC8 ["mercadolivre", "carrefour"] (by decide)⟩

/-- C10 counterexample: a request `["all", "lg"]` names "lg", but the "all"
sentinel replaces the whole requested list before validation, so "lg" is
silently dropped: no unsupported-site error entry is recorded for it. -/
theorem lg_all_sentinel_counterexample :
    "lg" ∈ (["all", "lg"] : List String) ∧
    (Orchestrator.coordinatorAgent { targetSites := ["all", "lg"] }).errors = [] ∧
    "lg" ∉ (Orchestrator.coordinatorAgent { targetSites := ["all", "lg"] }).targetSites :=
  ⟨by decide, by decide, by decide⟩

/-- C10 amended: the `"lg"` site can never contribute a product: the LG
scraper's `scrape` override returns the empty list for every input; "lg" is
registered in the orchestrator's scraper map, yet it is never in the
validated worklist; a request naming "lg" without the "all" sentinel records
an unsupported-site error; and the LG graph node is never visited in any run. -/
theorem lg_never_contributes_amended :
    (∀ (name : Str) (maxResults : ℕ), LG.scrape name maxResults = []) ∧
    "lg" ∈ Orchestrator.scrapersKeys ∧
    (∀ targets : List String,
      "lg" ∉ (Orchestrator.coordinatorAgent { targetSites := targets }).targetSites) ∧
    (∀ targets : List String, "all" ∉ targets → "lg" ∈ targets →
      Orchestrator.ErrMsg.unsupportedSite "lg" ∈
        (Orchestrator.coordinatorAgent { targetSites := targets }).errors) ∧
    (∀ (oracle : Orchestrator.Oracle) (targets : List String),
      Orchestrator.Node.lgScraper ∉ (Orchestrator.executeScraping oracle targets).2) := by
  refine ⟨fun _ _ => rfl, by decide, ?_, ?_, ?_⟩
  · intro targets hmem
    have hsub := Orchestrator.coordinatorValidate_subset
      (if targets.contains "all" then
        ["amazon", "mercadolivre", "magazine_luiza", "americanas", "casas_bahia"]
      else targets) "lg"
    unfold Orchestrator.coordinatorAgent at hmem
    dsimp only at hmem
    exact absurd (hsub hmem) (by decide)
  · intro targets hall hlg
    unfold Orchestrator.coordinatorAgent
    dsimp only
    rw [if_neg (by simpa using hall)]
    simp only [List.nil_append]
    exact Orchestrator.coordinatorValidate_lg_err targets hlg
  · intro oracle targets hmem
    rcases (Orchestrator.executeScraping_trace_invariant oracle targets).2 _ hmem with h | h
    · exact absurd h (by decide)
    · have hf : Orchestrator.nodeFlag Orchestrator.Node.lgScraper
          (Orchestrator.coordinatorAgent { targetSites := targets }).targetSites = false := rfl
      rw [hf] at h
      exact absurd h (by simp)

/-- Witness for C10 amended at the request `["lg"]`. -/
theorem lg_never_contributes_amended_witness :
    "lg" ∉ (Orchestrator.coordinatorAgent { targetSites := ["lg"] }).targetSites ∧
    Orchestrator.ErrMsg.unsupportedSite "lg" ∈
      (Orchestrator.coordinatorAgent { targetSites := ["lg"] }).errors ∧
    Orchestrator.Node.lgScraper ∉ (Orchestrator.executeScraping oracleC8 ["lg"]).2 :=
  ⟨lg_never_contributes_amended.2.2.1 ["lg"],
   lg_never_contributes_amended.2.2.2.1 ["lg"] (by decide) (by decide),
   lg_never_contributes_amended.2.2.2.2 oracleC8 ["lg"]⟩
